import Mathlib

/-!
Verification development for the `clai_queue_transcripts_lambda` repository.

The Python pipeline (src/lambda_function.py, src/utils/cleaning.py,
src/utils/data_processing.py, src/utils/queue_management.py) is shallowly
embedded below: pandas DataFrames become `List`s of records, pandas cell
values that matter to the claims become explicit sum types, in-place set
mutation becomes explicit state passing, and Python exceptions become
`Except` values.  A pandas multi-column `sort_values` is a stable sort by
the tuple of key columns (NaN keys placed last); it is embedded as a
counting sort (`csortBy`): buckets of equal keys in ascending key order,
each bucket keeping input order, which is exactly stable sorting.
-/

deriving instance DecidableEq for Except

namespace ClaiQueue

/-! ## Boolean linear orders used as sort comparators -/

def natLe (a b : Nat) : Bool := a ≤ b

/-- Code-point key of a string (Python compares strings lexicographically
by code point, and pandas sorts string columns the same way). -/
def strKey (s : String) : List Nat := s.data.map Char.toNat

/-- Strict lexicographic order on code-point lists. -/
def natListLt : List Nat → List Nat → Bool
  | _, [] => false
  | [], _ :: _ => true
  | a :: as, b :: bs => decide (a < b) || (decide (a = b) && natListLt as bs)

def strLt (a b : String) : Bool := natListLt (strKey a) (strKey b)

def strLe (a b : String) : Bool := !(strLt b a)

theorem natListLt_asymm : ∀ as bs : List Nat,
    natListLt as bs = true → natListLt bs as = false := by
  intro as
  induction as with
  | nil =>
    intro bs h
    cases bs with
    | nil => cases h
    | cons b bs => rfl
  | cons a as ih =>
    intro bs h
    cases bs with
    | nil => cases h
    | cons b bs =>
      rw [Bool.eq_false_iff]
      intro h2
      simp only [natListLt, Bool.or_eq_true, Bool.and_eq_true, decide_eq_true_eq] at h h2
      rcases h with h | ⟨he, hlt⟩ <;> rcases h2 with h2 | ⟨he2, hlt2⟩
      · omega
      · omega
      · omega
      · exact absurd (ih bs hlt) (by simp [hlt2])

theorem natListLt_conn : ∀ as bs : List Nat,
    natListLt as bs = false → natListLt bs as = false → as = bs := by
  intro as
  induction as with
  | nil =>
    intro bs h1 _
    cases bs with
    | nil => rfl
    | cons b bs => cases h1
  | cons a as ih =>
    intro bs h1 h2
    cases bs with
    | nil => cases h2
    | cons b bs =>
      by_cases hab : a = b
      · subst hab
        have he1 : natListLt as bs = false := by
          rw [Bool.eq_false_iff]
          intro hh
          rw [Bool.eq_false_iff] at h1
          exact h1 (by simp [natListLt, hh])
        have he2 : natListLt bs as = false := by
          rw [Bool.eq_false_iff]
          intro hh
          rw [Bool.eq_false_iff] at h2
          exact h2 (by simp [natListLt, hh])
        rw [ih bs he1 he2]
      · exfalso
        rcases Nat.lt_or_ge a b with hlt | hge
        · rw [Bool.eq_false_iff] at h1
          exact h1 (by simp [natListLt, hlt])
        · have hlt2 : b < a := by omega
          rw [Bool.eq_false_iff] at h2
          exact h2 (by simp [natListLt, hlt2])

theorem natListLt_trans : ∀ as bs cs : List Nat,
    natListLt as bs = true → natListLt bs cs = true → natListLt as cs = true := by
  intro as
  induction as with
  | nil =>
    intro bs cs h1 h2
    cases bs with
    | nil => cases h1
    | cons b bs =>
      cases cs with
      | nil => cases h2
      | cons c cs => rfl
  | cons a as ih =>
    intro bs cs h1 h2
    cases bs with
    | nil => cases h1
    | cons b bs =>
      cases cs with
      | nil => cases h2
      | cons c cs =>
        simp only [natListLt, Bool.or_eq_true, Bool.and_eq_true, decide_eq_true_eq] at h1 h2 ⊢
        rcases h1 with h1 | ⟨he1, hl1⟩ <;> rcases h2 with h2 | ⟨he2, hl2⟩
        · exact Or.inl (by omega)
        · exact Or.inl (by omega)
        · exact Or.inl (by omega)
        · exact Or.inr ⟨by omega, ih bs cs hl1 hl2⟩

theorem char_toNat_inj : ∀ {a b : Char}, a.toNat = b.toNat → a = b := by
  intro a b h
  apply Char.eq_of_val_eq
  apply UInt32.eq_of_toBitVec_eq
  apply BitVec.eq_of_toNat_eq
  exact h

theorem strKey_inj : ∀ {a b : String}, strKey a = strKey b → a = b := by
  intro a b h
  cases a with
  | mk da =>
    cases b with
    | mk db =>
      congr 1
      unfold strKey at h
      exact List.map_injective_iff.mpr (fun x y hxy => char_toNat_inj hxy) h

/-- Lexicographic combination of two boolean comparators. -/
def lexLe [DecidableEq α] (la : α → α → Bool) (lb : β → β → Bool) (x y : α × β) : Bool :=
  if x.1 = y.1 then lb x.2 y.2 else la x.1 y.1

/-- The comparator is total, transitive and antisymmetric. -/
structure LawfulBLE (le : α → α → Bool) : Prop where
  total : ∀ a b, le a b = true ∨ le b a = true
  trans : ∀ a b c, le a b = true → le b c = true → le a c = true
  anti : ∀ a b, le a b = true → le b a = true → a = b

theorem lawful_natLe : LawfulBLE natLe := by
  refine ⟨?_, ?_, ?_⟩ <;> intro a b <;> simp [natLe] <;> omega

theorem lawful_strLe : LawfulBLE strLe := by
  refine ⟨?_, ?_, ?_⟩
  · intro a b
    unfold strLe
    cases h : strLt b a with
    | false => exact Or.inl rfl
    | true =>
      refine Or.inr ?_
      unfold strLt at h ⊢
      simp [natListLt_asymm _ _ h]
  · intro a b c hab hbc
    unfold strLe strLt at *
    rw [Bool.not_eq_true'] at hab hbc
    rw [Bool.not_eq_true']
    cases hca : natListLt (strKey c) (strKey a) with
    | false => rfl
    | true =>
      exfalso
      cases hbc2 : natListLt (strKey b) (strKey c) with
      | true =>
        have := natListLt_trans _ _ _ hbc2 hca
        exact absurd this (by simp [hab])
      | false =>
        have hkey := natListLt_conn _ _ hbc hbc2
        rw [hkey] at hca
        exact absurd hca (by simp [hab])
  · intro a b hab hba
    unfold strLe strLt at hab hba
    rw [Bool.not_eq_true'] at hab hba
    exact strKey_inj (natListLt_conn _ _ hba hab)

theorem lawful_lexLe [DecidableEq α] {la : α → α → Bool} {lb : β → β → Bool}
    (ha : LawfulBLE la) (hb : LawfulBLE lb) : LawfulBLE (lexLe la lb) := by
  refine ⟨?_, ?_, ?_⟩
  · intro x y
    unfold lexLe
    by_cases h : x.1 = y.1
    · have h' : y.1 = x.1 := h.symm
      rw [if_pos h, if_pos h']
      exact hb.total x.2 y.2
    · have h' : ¬ y.1 = x.1 := fun hh => h hh.symm
      rw [if_neg h, if_neg h']
      exact ha.total x.1 y.1
  · intro x y z hxy hyz
    unfold lexLe at *
    by_cases h1 : x.1 = y.1 <;> by_cases h2 : y.1 = z.1
    · rw [if_pos h1] at hxy
      rw [if_pos h2] at hyz
      rw [if_pos (h1.trans h2)]
      exact hb.trans _ _ _ hxy hyz
    · rw [if_pos h1] at hxy
      rw [if_neg h2] at hyz
      have h3 : ¬ x.1 = z.1 := fun hh => h2 (h1 ▸ hh)
      rw [if_neg h3, h1]
      exact hyz
    · rw [if_neg h1] at hxy
      rw [if_pos h2] at hyz
      have h3 : ¬ x.1 = z.1 := fun hh => h1 (hh.trans h2.symm)
      rw [if_neg h3, ← h2]
      exact hxy
    · rw [if_neg h1] at hxy
      rw [if_neg h2] at hyz
      by_cases h3 : x.1 = z.1
      · exfalso
        exact h1 (ha.anti _ _ hxy (h3 ▸ hyz))
      · rw [if_neg h3]
        exact ha.trans _ _ _ hxy hyz
  · intro x y hxy hyx
    unfold lexLe at hxy hyx
    by_cases h : x.1 = y.1
    · have h' : y.1 = x.1 := h.symm
      rw [if_pos h] at hxy
      rw [if_pos h'] at hyx
      exact Prod.ext h (hb.anti _ _ hxy hyx)
    · have h' : ¬ y.1 = x.1 := fun hh => h hh.symm
      rw [if_neg h] at hxy
      rw [if_neg h'] at hyx
      exact absurd (ha.anti _ _ hxy hyx) h

/-! ## Stable sorting as counting sort -/

/-- Insert an element into a sorted list (used only on key lists). -/
def insertIn (le : α → α → Bool) (a : α) : List α → List α
  | [] => [a]
  | b :: bs => if le a b then a :: b :: bs else b :: insertIn le a bs

/-- Insertion sort on key lists. -/
def insertionSortBy (le : α → α → Bool) : List α → List α
  | [] => []
  | a :: as => insertIn le a (insertionSortBy le as)

theorem insertIn_perm (le : α → α → Bool) (a : α) :
    ∀ l : List α, (insertIn le a l).Perm (a :: l) := by
  intro l
  induction l with
  | nil => simp [insertIn]
  | cons b bs ih =>
    by_cases h : le a b
    · simp [insertIn, h]
    · simp only [insertIn, h, if_neg]
      exact ((ih.cons b).trans (List.Perm.swap a b bs)).symm.symm

theorem insertionSortBy_perm (le : α → α → Bool) :
    ∀ l : List α, (insertionSortBy le l).Perm l := by
  intro l
  induction l with
  | nil => simp [insertionSortBy]
  | cons a as ih =>
    exact (insertIn_perm le a _).trans (ih.cons a)

theorem insertIn_pairwise (le : α → α → Bool) (hle : LawfulBLE le) (a : α) :
    ∀ l : List α, l.Pairwise (fun x y => le x y = true) →
      (insertIn le a l).Pairwise (fun x y => le x y = true) := by
  intro l
  induction l with
  | nil => intro _; simp [insertIn]
  | cons b bs ih =>
    intro hl
    rcases List.pairwise_cons.mp hl with ⟨hb, hbs⟩
    cases hab : le a b with
    | true =>
      simp only [insertIn, hab, if_true]
      refine List.Pairwise.cons ?_ hl
      intro x hx
      rcases List.mem_cons.mp hx with rfl | hx
      · exact hab
      · exact hle.trans _ _ _ hab (hb _ hx)
    | false =>
      simp only [insertIn, hab, Bool.false_eq_true, if_false]
      refine List.Pairwise.cons ?_ (ih hbs)
      intro x hx
      have hmem := (insertIn_perm le a bs).mem_iff.mp hx
      rcases List.mem_cons.mp hmem with hx1 | hx2
      · subst hx1
        rcases hle.total x b with h1 | h1
        · exact absurd h1 (by simp [hab])
        · exact h1
      · exact hb _ hx2

theorem insertionSortBy_pairwise (le : α → α → Bool) (hle : LawfulBLE le) :
    ∀ l : List α, (insertionSortBy le l).Pairwise (fun x y => le x y = true) := by
  intro l
  induction l with
  | nil => simp [insertionSortBy]
  | cons a as ih => exact insertIn_pairwise le hle a _ ih

/-- Two sorted lists that are permutations of each other are equal
(the comparator being antisymmetric). -/
theorem sorted_perm_eq (le : α → α → Bool) (hle : LawfulBLE le) :
    ∀ l₁ l₂ : List α, l₁.Perm l₂ → l₁.Pairwise (fun x y => le x y = true) →
      l₂.Pairwise (fun x y => le x y = true) → l₁ = l₂ := by
  intro l₁
  induction l₁ with
  | nil =>
    intro l₂ hp _ _
    exact (hp.symm.eq_nil).symm
  | cons a as ih =>
    intro l₂ hp h₁ h₂
    cases l₂ with
    | nil => exact absurd hp.eq_nil (by simp)
    | cons b bs =>
      rcases h₁ with _ | ⟨ha, has⟩
      rcases h₂ with _ | ⟨hb, hbs⟩
      have hab : a = b := by
        have hamem : a ∈ b :: bs := hp.mem_iff.mp (List.mem_cons_self a as)
        have hbmem : b ∈ a :: as := hp.symm.mem_iff.mp (List.mem_cons_self b bs)
        rcases List.mem_cons.mp hamem with h | h
        · exact h
        · rcases List.mem_cons.mp hbmem with h' | h'
          · exact h'.symm
          · exact hle.anti a b (ha _ h') (hb _ h)
      subst hab
      have htail : as.Perm bs := hp.cons_inv
      exact congrArg (a :: ·) (ih bs htail has hbs)

/-- Counting sort: buckets of equal keys in ascending key order, each bucket
in input order.  This is stable sorting by `k`-keys under `le`. -/
def csortBy [DecidableEq K] (le : K → K → Bool) (k : α → K) (l : List α) : List α :=
  (insertionSortBy le (l.map k).dedup).flatMap (fun kv => l.filter (fun a => decide (k a = kv)))

theorem filter_filter_and (p q : α → Bool) (l : List α) :
    (l.filter q).filter p = l.filter (fun a => q a && p a) := by
  induction l with
  | nil => rfl
  | cons a as ih =>
    by_cases hq : q a
    · by_cases hp : p a <;> simp [List.filter_cons, hq, hp, ih]
    · simp [List.filter_cons, hq, ih]

theorem flatMap_congr {ks : List K} {f g : K → List α}
    (h : ∀ kv ∈ ks, f kv = g kv) : ks.flatMap f = ks.flatMap g := by
  induction ks with
  | nil => rfl
  | cons kv ks ih =>
    simp only [List.flatMap_cons]
    rw [h kv (List.mem_cons_self kv ks), ih (fun x hx => h x (List.mem_cons_of_mem kv hx))]

theorem flatMap_filter_perm [DecidableEq K] (k : α → K) :
    ∀ (ks : List K) (l : List α), ks.Nodup → (∀ a ∈ l, k a ∈ ks) →
      (ks.flatMap (fun kv => l.filter (fun a => decide (k a = kv)))).Perm l := by
  intro ks
  induction ks with
  | nil =>
    intro l _ hcov
    have : l = [] := List.eq_nil_iff_forall_not_mem.mpr (fun a ha => by simpa using hcov a ha)
    simp [this]
  | cons kv ks ih =>
    intro l hnd hcov
    rcases List.nodup_cons.mp hnd with ⟨hkv, hnd'⟩
    simp only [List.flatMap_cons]
    have hrest : ∀ kv' ∈ ks,
        l.filter (fun a => decide (k a = kv')) =
          (l.filter (fun a => !decide (k a = kv))).filter (fun a => decide (k a = kv')) := by
      intro kv' hkv'
      rw [filter_filter_and]
      apply List.filter_congr
      intro a _
      by_cases h : k a = kv'
      · have hne : ¬ (k a = kv) := fun hh => hkv (by rw [show kv = kv' from hh.symm.trans h]; exact hkv')
        have hne2 : ¬ kv' = kv := fun hh => hkv (hh ▸ hkv')
        simp [h, hne, hne2]
      · simp [h]
    rw [flatMap_congr hrest]
    have hcov' : ∀ a ∈ l.filter (fun a => !decide (k a = kv)), k a ∈ ks := by
      intro a ha
      rcases List.mem_filter.mp ha with ⟨hal, hne⟩
      rcases List.mem_cons.mp (hcov a hal) with h | h
      · simp at hne
        exact absurd h hne
      · exact h
    have hih := ih (l.filter (fun a => !decide (k a = kv))) hnd' hcov'
    exact (List.Perm.append_left _ hih).trans (List.filter_append_perm _ l)

theorem csortBy_perm [DecidableEq K] (le : K → K → Bool) (k : α → K) (l : List α) :
    (csortBy le k l).Perm l := by
  apply flatMap_filter_perm
  · exact ((insertionSortBy_perm le _).nodup_iff).mpr (List.nodup_dedup _)
  · intro a ha
    exact ((insertionSortBy_perm le _).mem_iff).mpr (List.mem_dedup.mpr (List.mem_map_of_mem k ha))

theorem flatMap_filter_filter [DecidableEq K] (k : α → K) (kv : K) :
    ∀ (ks : List K) (l : List α), ks.Nodup →
      (ks.flatMap (fun kv' => l.filter (fun a => decide (k a = kv')))).filter
          (fun a => decide (k a = kv)) =
        if kv ∈ ks then l.filter (fun a => decide (k a = kv)) else [] := by
  intro ks
  induction ks with
  | nil => intro l _; simp
  | cons kv₀ ks ih =>
    intro l hnd
    rcases List.nodup_cons.mp hnd with ⟨hkv₀, hnd'⟩
    simp only [List.flatMap_cons, List.filter_append]
    rw [ih l hnd', filter_filter_and]
    by_cases h : kv = kv₀
    · subst h
      have h1 : l.filter (fun a => decide (k a = kv) && decide (k a = kv)) =
          l.filter (fun a => decide (k a = kv)) := by
        apply List.filter_congr; intro a _; by_cases hh : k a = kv <;> simp [hh]
      rw [h1, if_neg hkv₀, if_pos (List.mem_cons_self _ _), List.append_nil]
    · have h1 : l.filter (fun a => decide (k a = kv₀) && decide (k a = kv)) = [] := by
        apply List.filter_eq_nil_iff.mpr
        intro a _
        by_cases hh : k a = kv₀
        · have h2 : ¬ (k a = kv) := fun hk => h (hk.symm.trans hh)
          have h4 : ¬ kv₀ = kv := fun hk => h hk.symm
          simp [hh, h2, h4]
        · simp [hh]
      rw [h1, List.nil_append]
      by_cases h2 : kv ∈ ks
      · rw [if_pos h2, if_pos (List.mem_cons_of_mem _ h2)]
      · have h3 : kv ∉ kv₀ :: ks := by
          intro hmem
          rcases List.mem_cons.mp hmem with h4 | h4
          · exact h h4
          · exact h2 h4
        rw [if_neg h2, if_neg h3]

/-- Filtering a counting-sorted list down to one key class recovers that key
class of the input, in input order. -/
theorem csortBy_filter_key [DecidableEq K] (le : K → K → Bool) (k : α → K) (l : List α)
    (kv : K) :
    (csortBy le k l).filter (fun a => decide (k a = kv)) =
      l.filter (fun a => decide (k a = kv)) := by
  unfold csortBy
  rw [flatMap_filter_filter k kv _ l
    (((insertionSortBy_perm le _).nodup_iff).mpr (List.nodup_dedup _))]
  by_cases h : kv ∈ insertionSortBy le (l.map k).dedup
  · rw [if_pos h]
  · rw [if_neg h]
    symm
    apply List.filter_eq_nil_iff.mpr
    intro a ha
    simp only [decide_eq_true_eq]
    intro hk
    exact h (((insertionSortBy_perm le _).mem_iff).mpr
      (List.mem_dedup.mpr (hk ▸ List.mem_map_of_mem k ha)))

theorem csortBy_pairwise [DecidableEq K] (le : K → K → Bool) (hle : LawfulBLE le)
    (k : α → K) (l : List α) :
    (csortBy le k l).Pairwise (fun a b => le (k a) (k b) = true) := by
  unfold csortBy
  have hks := insertionSortBy_pairwise le hle (l.map k).dedup
  generalize insertionSortBy le (l.map k).dedup = ks at hks ⊢
  induction ks with
  | nil => simp
  | cons kv ks ih =>
    rcases hks with _ | ⟨hkv, hks'⟩
    simp only [List.flatMap_cons]
    apply (List.pairwise_append).mpr
    refine ⟨?_, ih hks', ?_⟩
    · apply List.pairwise_of_forall_mem_list
      intro a ha b hb
      rcases List.mem_filter.mp ha with ⟨_, hka⟩
      rcases List.mem_filter.mp hb with ⟨_, hkb⟩
      simp only [decide_eq_true_eq] at hka hkb
      rw [hka, hkb]
      rcases hle.total kv kv with h | h <;> exact h
    · intro a ha b hb
      rcases List.mem_filter.mp ha with ⟨_, hka⟩
      simp only [decide_eq_true_eq] at hka
      rcases List.mem_flatMap.mp hb with ⟨kv', hkv', hbmem⟩
      rcases List.mem_filter.mp hbmem with ⟨_, hkb⟩
      simp only [decide_eq_true_eq] at hkb
      rw [hka, hkb]
      exact hkv kv' hkv'

/-- A counting sort only depends on the keys of the list members. -/
theorem csortBy_key_congr [DecidableEq K] (le : K → K → Bool) {k₁ k₂ : α → K} (l : List α)
    (h : ∀ a ∈ l, k₁ a = k₂ a) : csortBy le k₁ l = csortBy le k₂ l := by
  unfold csortBy
  have h1 : l.map k₁ = l.map k₂ := List.map_congr_left h
  rw [h1]
  apply flatMap_congr
  intro kv _
  apply List.filter_congr
  intro a ha
  rw [h a ha]

/-! ## Key-based first-occurrence deduplication (pandas `drop_duplicates`) -/

def dedupByAux [DecidableEq K] (k : α → K) (seen : List K) : List α → List α
  | [] => []
  | a :: as =>
    if k a ∈ seen then dedupByAux k seen as else a :: dedupByAux k (k a :: seen) as

/-- `drop_duplicates(key)`: keep the first occurrence of each key. -/
def dedupBy [DecidableEq K] (k : α → K) (l : List α) : List α := dedupByAux k [] l

theorem dedupByAux_sublist [DecidableEq K] (k : α → K) :
    ∀ (l : List α) (seen : List K), (dedupByAux k seen l).Sublist l := by
  intro l
  induction l with
  | nil => intro seen; simp [dedupByAux]
  | cons a as ih =>
    intro seen
    by_cases h : k a ∈ seen
    · simp only [dedupByAux, if_pos h]
      exact (ih seen).cons a
    · simp only [dedupByAux, if_neg h]
      exact (ih (k a :: seen)).cons₂ a

theorem dedupBy_sublist [DecidableEq K] (k : α → K) (l : List α) :
    (dedupBy k l).Sublist l := dedupByAux_sublist k l []

theorem dedupByAux_keys_nodup [DecidableEq K] (k : α → K) :
    ∀ (l : List α) (seen : List K),
      ((dedupByAux k seen l).map k).Nodup ∧ ∀ x ∈ (dedupByAux k seen l).map k, x ∉ seen := by
  intro l
  induction l with
  | nil => intro seen; simp [dedupByAux]
  | cons a as ih =>
    intro seen
    by_cases h : k a ∈ seen
    · simp only [dedupByAux, if_pos h]
      exact ih seen
    · simp only [dedupByAux, if_neg h, List.map_cons, List.nodup_cons]
      rcases ih (k a :: seen) with ⟨hnd, hnm⟩
      refine ⟨⟨?_, hnd⟩, ?_⟩
      · intro hmem
        exact (hnm _ hmem) (List.mem_cons_self _ _)
      · intro x hx
        rcases List.mem_cons.mp hx with rfl | hx'
        · exact h
        · intro hxs
          exact (hnm _ hx') (List.mem_cons_of_mem _ hxs)

theorem dedupBy_keys_nodup [DecidableEq K] (k : α → K) (l : List α) :
    ((dedupBy k l).map k).Nodup := (dedupByAux_keys_nodup k l []).1

theorem dedupByAux_eq_self [DecidableEq K] (k : α → K) :
    ∀ (l : List α) (seen : List K), (l.map k).Nodup → (∀ a ∈ l, k a ∉ seen) →
      dedupByAux k seen l = l := by
  intro l
  induction l with
  | nil => intro seen _ _; rfl
  | cons a as ih =>
    intro seen hnd hns
    rw [List.map_cons, List.nodup_cons] at hnd
    rcases hnd with ⟨hka, hnd'⟩
    have h : k a ∉ seen := hns a (List.mem_cons_self a as)
    simp only [dedupByAux, if_neg h]
    congr 1
    apply ih (k a :: seen) hnd'
    intro b hb
    intro hmem
    rcases List.mem_cons.mp hmem with h1 | h1
    · exact hka (h1 ▸ List.mem_map_of_mem k hb)
    · exact (hns b (List.mem_cons_of_mem a hb)) h1

/-- If the keys are already pairwise distinct, `drop_duplicates` is a no-op. -/
theorem dedupBy_eq_self [DecidableEq K] (k : α → K) (l : List α)
    (h : (l.map k).Nodup) : dedupBy k l = l :=
  dedupByAux_eq_self k l [] h (by intro a _; simp)

/-! ## Left-to-right monadic map over `Except`
(models pandas `.apply` where a row can raise, aborting the whole call) -/

def mapME (f : α → Except ε β) : List α → Except ε (List β)
  | [] => .ok []
  | a :: as => do
    let b ← f a
    let bs ← mapME f as
    .ok (b :: bs)

theorem mapME_length (f : α → Except ε β) :
    ∀ (l : List α) (out : List β), mapME f l = .ok out → out.length = l.length := by
  intro l
  induction l with
  | nil => intro out h; simp only [mapME] at h; cases h; rfl
  | cons a as ih =>
    intro out h
    simp only [mapME, bind, Except.bind] at h
    cases hf : f a with
    | error e => rw [hf] at h; cases h
    | ok b =>
      rw [hf] at h
      cases hm : mapME f as with
      | error e => rw [hm] at h; cases h
      | ok bs =>
        rw [hm] at h
        cases h
        simp [ih bs hm]

theorem mapME_mem (f : α → Except ε β) :
    ∀ (l : List α) (out : List β), mapME f l = .ok out →
      ∀ b ∈ out, ∃ a ∈ l, f a = .ok b := by
  intro l
  induction l with
  | nil => intro out h; simp only [mapME] at h; cases h; simp
  | cons a as ih =>
    intro out h b hb
    simp only [mapME, bind, Except.bind] at h
    cases hf : f a with
    | error e => rw [hf] at h; cases h
    | ok b₀ =>
      rw [hf] at h
      cases hm : mapME f as with
      | error e => rw [hm] at h; cases h
      | ok bs =>
        rw [hm] at h
        cases h
        rcases List.mem_cons.mp hb with rfl | hb'
        · exact ⟨a, List.mem_cons_self a as, hf⟩
        · rcases ih bs hm b hb' with ⟨a', ha', hfa'⟩
          exact ⟨a', List.mem_cons_of_mem a ha', hfa'⟩

theorem mapME_total (f : α → Except ε β) :
    ∀ l : List α, (∀ a ∈ l, ∃ b, f a = .ok b) → ∃ out, mapME f l = .ok out := by
  intro l
  induction l with
  | nil => intro _; exact ⟨[], rfl⟩
  | cons a as ih =>
    intro h
    rcases h a (List.mem_cons_self a as) with ⟨b, hb⟩
    rcases ih (fun a' ha' => h a' (List.mem_cons_of_mem a ha')) with ⟨bs, hbs⟩
    exact ⟨b :: bs, by simp [mapME, bind, Except.bind, hb, hbs]⟩

/-! ## Embedding of the repository's data model (src/utils/cleaning.py etc.) -/

/-- The Python exception classes the embedded code can raise. -/
inductive PyErr
  | typeError
  | valueError
  | keyError
  | indexError
  | attributeError
  | clientError
deriving DecidableEq, Repr

/-- A pandas cell of the `time`/`timestamp` → `watched_at` column.
`raw` is a string straight from the JSON, `nonstr` any non-string cell (a
number, or the `NaN` produced by a missing source field), `dt` a parsed
datetime, `nat` is pandas `NaT` (the sentinel for an unparseable
timestamp). -/
inductive TSVal
  | raw (s : String)
  | nonstr
  | dt (t : Nat)
  | nat
deriving DecidableEq, Repr

/-- A canonical record (one row of a preprocessed DataFrame).  Columns that
only one of the two parsers creates are `Option`s: Parser A creates
`status` but no `type` column, Parser B creates `type` but no `status`
(`record.get(col, '')` in the batch builder reads the default for a
missing column). -/
structure Rec where
  video_id : String
  title : String
  channel_name : String
  type : Option String
  watched_at : TSVal
  status : Option String
deriving DecidableEq, Repr

/-- The last segment of a split on `sep`: the characters after the last
occurrence of `sep` (the whole list when `sep` does not occur, empty when
the list ends with `sep`). -/
def lastSegment (sep : Char) (cs : List Char) : List Char :=
  cs.foldl (fun acc c => if c = sep then [] else acc ++ [c]) []

/-- `url.split('=')[-1]`: the suffix after the last `'='`. -/
def get_video_id (url : String) : String :=
  String.mk (lastSegment '=' url.data)

/-- `list(subtitles[0].values())[0]`; raises `IndexError` when the
subtitles list or its first mapping is empty.  A mapping is embedded as a
list of key-value pairs in insertion order, `.values()` taking the second
components. -/
def extract_channel_name (subtitles : List (List (String × String))) : Except PyErr String :=
  match subtitles with
  | [] => .error .indexError
  | d :: _ =>
    match d with
    | [] => .error .indexError
    | kv :: _ => .ok kv.2

/-- One entry of the single-type (Parser A) export; fields that can be
missing in the JSON are `Option`s (`none` embeds a missing value / NaN). -/
structure RawEntryA where
  titleUrl : Option String
  title : Option String
  subtitles : Option (List (List (String × String)))
  time : Option String
deriving DecidableEq, Repr

/-- The `dropna(subset=["titleUrl", "title", "subtitles", "time"])` row
predicate. -/
def rowOkA (e : RawEntryA) : Bool :=
  e.titleUrl.isSome && e.title.isSome && e.subtitles.isSome && e.time.isSome

/-- Parser A (`preprocess_data_clai`): drop rows with missing fields,
extract channel name (which can raise `IndexError`) and video id, keep
rows whose id has length 11, drop duplicate ids keeping the first
occurrence, set `status='CREATED'` and rename `time` to `watched_at`.
(The constant `status` column added after dedup in the source is attached
at record construction here; empty-input column pathologies of pandas are
not modelled.) -/
def rowToRecA (e : RawEntryA) : Except PyErr Rec := do
  let ch ← extract_channel_name (e.subtitles.getD [])
  Except.ok { video_id := get_video_id (e.titleUrl.getD ""),
              title := e.title.getD "",
              channel_name := ch,
              type := none,
              watched_at := TSVal.raw (e.time.getD ""),
              status := some "CREATED" }

def preprocess_data_clai (entries : List RawEntryA) : Except PyErr (List Rec) := do
  let recs ← mapME rowToRecA (entries.filter rowOkA)
  Except.ok (dedupBy Rec.video_id (recs.filter (fun r => r.video_id.length == 11)))

/-- One entry of the multi-type (Parser B) export. -/
structure RawEntryB where
  url : Option String
  timestamp : TSVal
  title : Option String
  channelName : Option String
deriving DecidableEq, Repr

/-- A Parser-B row after the `order` and `type` columns are added. -/
structure TaggedB where
  entry : RawEntryB
  order : Nat
  type : String
deriving DecidableEq, Repr

def tagEntries (es : List RawEntryB) (ty : String) : List TaggedB :=
  es.enum.map (fun p => { entry := p.2, order := p.1, type := ty })

def bKey (t : TaggedB) : String × Nat := (t.type, t.order)

def kle2 : String × Nat → String × Nat → Bool := lexLe strLe natLe

/-- `sort_values(by=['type', 'order'])`, a stable sort. -/
def sortByTypeOrder (l : List TaggedB) : List TaggedB := csortBy kle2 bKey l

/-- The `dropna(subset=["url", "title", "channelName"])` row predicate
(note: `timestamp` is not checked). -/
def rowOkB (t : TaggedB) : Bool :=
  t.entry.url.isSome && t.entry.title.isSome && t.entry.channelName.isSome

/-- Build the canonical record from a tagged Parser-B row: extract
`video_id` from the URL (no length filter), project to the five canonical
columns and rename (`channelName` → `channel_name`, `timestamp` →
`watched_at`). -/
def mkRecB (t : TaggedB) : Rec :=
  { video_id := get_video_id (t.entry.url.getD ""),
    title := t.entry.title.getD "",
    channel_name := t.entry.channelName.getD "",
    type := some t.type,
    watched_at := t.entry.timestamp,
    status := none }

/-- Parser B up to (not including) `reorder_frame`: tag the two lists,
concatenate, sort by `(type, order)`, drop rows with missing fields,
extract ids and project. -/
def canonicalB (likes subs : List RawEntryB) : List Rec :=
  ((sortByTypeOrder (tagEntries likes "like" ++ tagEntries subs "sub")).filter rowOkB).map mkRecB

/-- `to_datetime` on one cell.  `dateutil.parser.isoparse` (plus the
microsecond truncation) is abstracted as the parameter `parse`: `some t`
embeds a successful parse, `none` a `ValueError` — the only exception
`isoparse` raises on a string argument — which the source catches and
turns into `NaT`.  Any non-string cell (NaN, a number, an
already-converted datetime, `NaT` itself) has no `len` and makes
`isoparse` raise an uncaught `TypeError`. -/
def to_datetime (parse : String → Option Nat) : TSVal → Except PyErr TSVal
  | .raw s =>
    match parse s with
    | some t => .ok (.dt t)
    | none => .ok .nat
  | _ => .error .typeError

/-- `convert_to_datetime`: apply `to_datetime` to every `watched_at` cell
(`.apply` propagates the first uncaught exception). -/
def convert_to_datetime (parse : String → Option Nat) (l : List Rec) :
    Except PyErr (List Rec) :=
  mapME (fun r => (to_datetime parse r.watched_at).map
    (fun w => { r with watched_at := w })) l

/-- The datetime of a cell for ranking purposes: `NaT` (and any
unconverted cell) counts as missing, like pandas `NaN`. -/
def tvalOf : TSVal → Option Nat
  | .dt t => some t
  | _ => none

def tval (r : Rec) : Option Nat := tvalOf r.watched_at

def omax : Option Nat → Option Nat → Option Nat
  | none, b => b
  | some x, none => some x
  | some x, some y => some (max x y)

/-- `groupby('channel_name')['watched_at'].max()` for channel `c`: NaT
values are skipped; an all-NaT (or absent) group yields NaT (`none`). -/
def gmax (l : List Rec) (c : String) : Option Nat :=
  (l.filter (fun r => r.channel_name == c)).foldr (fun r acc => omax (tval r) acc) none

/-- `groupby` group keys in sorted order (pandas sorts group keys). -/
def channelsSorted (l : List Rec) : List String :=
  insertionSortBy strLe ((l.map Rec.channel_name).dedup)

/-- `calculate_sub_group_rank`: `rank(method='first', ascending=False)`
over the per-channel maxima.  A channel with NaT maximum gets `NaN`
(`none`); otherwise its rank is one plus the number of channels ranked
strictly before it — larger maximum first, ties broken by position in the
(channel-sorted) groupby result, i.e. by channel name. -/
def grank (l : List Rec) (c : String) : Option Nat :=
  match gmax l c with
  | none => none
  | some m =>
    some (1 + ((channelsSorted l).countP (fun c2 =>
      match gmax l c2 with
      | none => false
      | some m2 => decide (m < m2) || (decide (m2 = m) && strLt c2 c))))

/-- `rank_within_group`: `groupby('channel_name')['watched_at']
.rank(method='first', ascending=False)` for the record `r` at frame
position `i`: `NaN` for NaT, otherwise one plus the number of same-channel
records ranked strictly before it (later datetime first, ties broken by
frame position). -/
def vrank (l : List Rec) (i : Nat) (r : Rec) : Option Nat :=
  match tval r with
  | none => none
  | some t =>
    some (1 + (l.enum.countP (fun p =>
      p.2.channel_name == r.channel_name &&
        (match tval p.2 with
         | none => false
         | some t2 => decide (t < t2) || (decide (t2 = t) && decide (p.1 < i))))))

/-- NaN-last encoding of an optional rank as a sort key component. -/
def optKey : Option Nat → Nat × Nat
  | none => (1, 0)
  | some v => (0, v)

/-- The `type` cell as the sort sees it (a missing value sorts as an empty
placeholder, distinct from every real label). -/
def typeStr (r : Rec) : String := r.type.getD ""

abbrev SortKey := (Nat × Nat) × (Nat × Nat) × String

def skLe : SortKey → SortKey → Bool :=
  lexLe (lexLe natLe natLe) (lexLe (lexLe natLe natLe) strLe)

def sortKey (l : List Rec) (i : Nat) (r : Rec) : SortKey :=
  (optKey (vrank l i r), optKey (grank l r.channel_name), typeStr r)

/-- Steps 1–3 of `reorder_frame` after conversion: compute the two rank
columns and stably sort by `(video_rank_within_group, sub_group_rank,
type)`, all ascending, NaN last (`sort_dataframe`; a pandas multi-column
`sort_values` is a stable lexicographic sort). -/
def rankSort (l : List Rec) : List Rec :=
  (csortBy skLe (fun p => sortKey l p.1 p.2) l.enum).map Prod.snd

def isLike (r : Rec) : Bool := r.type == some "like"

/-- `move_type_to_top`: stable partition putting the `'like'` rows first. -/
def move_type_to_top (l : List Rec) : List Rec :=
  l.filter isLike ++ l.filter (fun r => !(isLike r))

/-- Steps 2–6 of `reorder_frame` (everything after the timestamp
conversion): rank, sort, promote likes, drop duplicate `video_id`s keeping
the first survivor.  The transient rank columns are computed on the fly
and never stored on the records, so the final `drop(columns=...)` is
implicit. -/
def rank_core (l : List Rec) : List Rec :=
  dedupBy Rec.video_id (move_type_to_top (rankSort l))

/-- `reorder_frame`: convert `watched_at`, then rank/sort/promote/dedup. -/
def reorder_frame (parse : String → Option Nat) (l : List Rec) :
    Except PyErr (List Rec) := do
  let converted ← convert_to_datetime parse l
  Except.ok (rank_core converted)

/-- Parser B (`preprocess_data_clai_light`). -/
def preprocess_data_clai_light (parse : String → Option Nat)
    (likes subs : List RawEntryB) : Except PyErr (List Rec) :=
  reorder_frame parse (canonicalB likes subs)

/-! ## Embedding of src/utils/queue_management.py -/

/-- One SQS message: the `Id` plus the fields of the JSON `MessageBody`
(`json.dumps` is not modelled; the payload stays structured). -/
structure SqsMessage where
  Id : String
  file_id : String
  video_id : String
  channel_name : String
  status : String
  type : String
  title : String
  watched_at : String
  current_transcript : Nat
  total_transcripts : Nat
deriving DecidableEq, Repr

/-- Python `str(...)` of a `watched_at` cell (the exact rendering is
irrelevant to every claim). -/
def tsToStr : TSVal → String
  | .raw s => s
  | .nonstr => "nan"
  | .dt t => toString t
  | .nat => "NaT"

/-- `prepare_sqs_messages`: filter out the rows whose `video_id` is in
`existing_ids` — the membership mask is evaluated up front, before the
loop — then build one message per surviving row, numbering them from 1
(`current_transcript = idx + 1`) with `total_transcripts` the count of
surviving rows.  The loop's in-place `existing_ids.add(video_id)` calls
are returned as the second component. -/
def prepare_sqs_messages (df : List Rec) (existing_ids : Finset String)
    (file_id : String) : List SqsMessage × Finset String :=
  let filtered := df.filter (fun r => decide (r.video_id ∉ existing_ids))
  let total_rows := filtered.length
  let messages := filtered.enum.map (fun p =>
    { Id := p.2.video_id,
      file_id := file_id,
      video_id := p.2.video_id,
      channel_name := p.2.channel_name,
      status := "NEW",
      type := p.2.type.getD "",
      title := p.2.title,
      watched_at := tsToStr p.2.watched_at,
      current_transcript := p.1 + 1,
      total_transcripts := total_rows })
  (messages, existing_ids ∪ (filtered.map Rec.video_id).toFinset)

/-- The transport chunks of `for i in range(0, len(messages), batch_size)`
with `batch_size = 10`. -/
def chunksOf10 : List SqsMessage → List (List SqsMessage)
  | [] => []
  | a :: rest => ((a :: rest).take 10) :: chunksOf10 ((a :: rest).drop 10)
termination_by l => l.length
decreasing_by simp; omega

/-- `send_messages_to_sqs`: send every chunk through the queue
collaborator (`sqs_client.send_message_batch`, embedded as the function
returning the accepted `Successful` subset of a chunk) and sum the
accepted counts. -/
def send_messages_to_sqs (sendBatch : List SqsMessage → List SqsMessage)
    (messages : List SqsMessage) : Nat :=
  ((chunksOf10 messages).map (fun b => (sendBatch b).length)).sum

/-! ## Embedding of src/utils/data_processing.py and src/lambda_function.py -/

def BUCKET_NAME : String := "clai-video-ids"

def CLAI_EXPORTS_BUCKET_NAME : String := "clai-youtube-exports"

def CLAI_LIGHT_EXPORTS_BUCKET_NAME : String := "clai-light-youtube-exports"

def FILE_NAME : String := "all/all.pickle"

/-- `os.path.splitext(key)[0]` (approximated: drop what follows the last
dot when one exists; no claim inspects this value). -/
def splitextBase (k : String) : String :=
  match k.splitOn "." with
  | [x] => x
  | parts => String.intercalate "." parts.dropLast

structure RunMetadata where
  file_id : String
  s3_bucket : String
  upload_timestamp : String
deriving DecidableEq, Repr

/-- What `json.loads` plus the origin dispatch can see in a fetched blob:
`malformed` embeds a JSON parse failure (`JSONDecodeError`, a
`ValueError`); `dataA`/`dataB` a well-formed blob of the named shape. -/
inductive RawData
  | malformed
  | dataA (entries : List RawEntryA)
  | dataB (likes subs : List RawEntryB)

/-- `download_and_preprocess_data`.  The trigger-event field extraction
(`json.loads(event['Records'][0]['body'])['Records'][0]...`) and the S3
fetch are collaborator inputs: `trigger` is the extracted
`(bucket, key)` or the extraction error, `fetch` the raw-blob fetch.
Unknown bucket: `ValueError` (raised explicitly in the source); a
well-formed blob of the wrong shape fails inside pandas (`KeyError` from
`dropna` on absent columns for Parser A, `AttributeError` from
`.get` on a list for Parser B). -/
def download_and_preprocess_data (parse : String → Option Nat)
    (trigger : Except PyErr (String × String))
    (fetch : String → String → Except PyErr RawData)
    (uploadTimestamp : String) : Except PyErr (List Rec × RunMetadata) := do
  let tr ← trigger
  let raw ← fetch tr.1 tr.2
  let df ←
    if tr.1 = CLAI_EXPORTS_BUCKET_NAME then
      match raw with
      | .dataA es => preprocess_data_clai es
      | .malformed => .error .valueError
      | .dataB _ _ => .error .keyError
    else if tr.1 = CLAI_LIGHT_EXPORTS_BUCKET_NAME then
      match raw with
      | .dataB ls ss => preprocess_data_clai_light parse ls ss
      | .malformed => .error .valueError
      | .dataA _ => .error .attributeError
    else .error .valueError
  Except.ok (df, { file_id := splitextBase tr.2, s3_bucket := tr.1,
                   upload_timestamp := uploadTimestamp })

structure RunResult where
  num_videos_before : Nat
  num_videos_after : Nat
  new_videos_added : Nat
  duplicates_not_added : Nat
  messages_sent : Nat
deriving DecidableEq, Repr

/-- The persisted-state writes and outward sends of one run. -/
inductive Effect
  | putStatusItem (item : List (String × String))
  | putVideoIdsSnapshot (ids : Finset String)
  | notifyLabelingQueue (body : String)

/-- `lambda_handler`.  `dap` is the outcome of
`download_and_preprocess_data`, `dei` of `download_existing_video_ids`
(both raise through on failure); `sendBatch` the queue collaborator;
`notifyOk` whether the best-effort labeling-queue send succeeds (its
failure is swallowed).  Writes happen only on the success path and are
returned as the effect list; an `error` result performs no write. -/
def lambda_handler (dap : Except PyErr (List Rec × RunMetadata))
    (dei : Except PyErr (Finset String))
    (sendBatch : List SqsMessage → List SqsMessage)
    (notifyOk : Bool) (eventBody nowStr : String) :
    Except PyErr (RunResult × List Effect) := do
  let (df, metadata) ← dap
  let existing_ids ← dei
  let num_ids_before := existing_ids.card
  let (messages, existing_ids2) := prepare_sqs_messages df existing_ids metadata.file_id
  let successful_messages := send_messages_to_sqs sendBatch messages
  let num_ids_after := existing_ids2.card
  let result : RunResult :=
    { num_videos_before := num_ids_before,
      num_videos_after := num_ids_after,
      new_videos_added := num_ids_after - num_ids_before,
      duplicates_not_added := df.length - (num_ids_after - num_ids_before),
      messages_sent := successful_messages }
  let item : List (String × String) :=
    [("file_id", metadata.file_id),
     ("file_origin_s3_bucket", metadata.s3_bucket),
     ("transcripts_first", metadata.upload_timestamp),
     ("num_videos_file_unique", toString (result.duplicates_not_added + result.new_videos_added)),
     ("num_videos_total_before", toString result.num_videos_before),
     ("num_videos_total_after", toString result.num_videos_after),
     ("num_videos_total_added", toString result.new_videos_added),
     ("num_videos_total_duplicate", toString result.duplicates_not_added),
     ("messages_sent", toString result.messages_sent)] ++
    (if messages.length = 0 then [("transcripts_last", nowStr)] else [])
  let writeEffects :=
    [Effect.putStatusItem item] ++
    (if result.new_videos_added > 0 then [Effect.putVideoIdsSnapshot existing_ids2] else []) ++
    (if notifyOk then [Effect.notifyLabelingQueue eventBody] else [])
  Except.ok (result, writeEffects)

/-- The persisted-state effects an invocation outcome performs: an
aborted (error) invocation performs none. -/
def effectsOf (res : Except PyErr (RunResult × List Effect)) : List Effect :=
  match res with
  | .ok (_, effs) => effs
  | .error _ => []

/-! ## Helper lemmas about the embedded operations -/

theorem enumFrom_map_fst_succ :
    ∀ (l : List α) (n : Nat),
      (List.enumFrom n l).map (fun p => p.1 + 1) = List.range' (n + 1) l.length := by
  intro l
  induction l with
  | nil => intro n; rfl
  | cons a as ih =>
    intro n
    simp only [List.enumFrom_cons, List.map_cons, List.length_cons, List.range'_succ]
    rw [ih (n + 1)]

theorem prepare_messages_eq (df : List Rec) (ids : Finset String) (fid : String) :
    (prepare_sqs_messages df ids fid).1 =
      (df.filter (fun r => decide (r.video_id ∉ ids))).enum.map (fun p =>
        { Id := p.2.video_id,
          file_id := fid,
          video_id := p.2.video_id,
          channel_name := p.2.channel_name,
          status := "NEW",
          type := p.2.type.getD "",
          title := p.2.title,
          watched_at := tsToStr p.2.watched_at,
          current_transcript := p.1 + 1,
          total_transcripts := (df.filter (fun r => decide (r.video_id ∉ ids))).length }) := rfl

theorem prepare_ids_eq (df : List Rec) (ids : Finset String) (fid : String) :
    (prepare_sqs_messages df ids fid).2 =
      ids ∪ ((df.filter (fun r => decide (r.video_id ∉ ids))).map Rec.video_id).toFinset := rfl

theorem prepare_messages_length (df : List Rec) (ids : Finset String) (fid : String) :
    (prepare_sqs_messages df ids fid).1.length =
      (df.filter (fun r => decide (r.video_id ∉ ids))).length := by
  rw [prepare_messages_eq, List.length_map, List.enum_length]

/-- The number of ids the gate adds is at most the number of input rows. -/
theorem prepare_card_le (df : List Rec) (ids : Finset String) (fid : String) :
    (prepare_sqs_messages df ids fid).2.card - ids.card ≤ df.length := by
  rw [prepare_ids_eq]
  have h1 : (ids ∪ ((df.filter (fun r => decide (r.video_id ∉ ids))).map Rec.video_id).toFinset).card
      ≤ ids.card + ((df.filter (fun r => decide (r.video_id ∉ ids))).map Rec.video_id).toFinset.card :=
    Finset.card_union_le _ _
  have h2 : ((df.filter (fun r => decide (r.video_id ∉ ids))).map Rec.video_id).toFinset.card
      ≤ ((df.filter (fun r => decide (r.video_id ∉ ids))).map Rec.video_id).length :=
    (df.filter (fun r => decide (r.video_id ∉ ids))).map Rec.video_id |>.toFinset_card_le
  have h3 : ((df.filter (fun r => decide (r.video_id ∉ ids))).map Rec.video_id).length
      ≤ df.length := by
    rw [List.length_map]
    exact List.length_filter_le _ _
  omega

/-! ## C1 -/

/-- C1: for every canonical record set and every prior Global-Id Set,
running the Dedup Gate only ever adds ids to the set (the prior set is
contained in the posterior one), the set's size increase equals the
reported `new_videos_added`, and `new_videos_added + duplicates_not_added`
equals the size of the input record set. -/
theorem C1_dedup_gate_monotonic (df : List Rec) (ids : Finset String) (md : RunMetadata)
    (sendBatch : List SqsMessage → List SqsMessage) (notifyOk : Bool)
    (eventBody nowStr : String) (result : RunResult) (effs : List Effect)
    (hrun : lambda_handler (.ok (df, md)) (.ok ids) sendBatch notifyOk eventBody nowStr
      = .ok (result, effs)) :
    ids ⊆ (prepare_sqs_messages df ids md.file_id).2 ∧
    result.new_videos_added = (prepare_sqs_messages df ids md.file_id).2.card - ids.card ∧
    result.new_videos_added + result.duplicates_not_added = df.length := by
  simp only [lambda_handler, bind, Except.bind, Except.ok.injEq, Prod.mk.injEq] at hrun
  rcases hrun with ⟨hres, _⟩
  subst hres
  refine ⟨?_, rfl, ?_⟩
  · rw [prepare_ids_eq]
    exact Finset.subset_union_left
  · have := prepare_card_le df ids md.file_id
    simp only
    omega

theorem C1_dedup_gate_monotonic_witness :
    ∃ result effs,
      lambda_handler (.ok ([], ⟨"f", "b", "t"⟩)) (.ok ∅) (fun b => b) true "" ""
        = .ok (result, effs) ∧
      (∅ : Finset String) ⊆ (prepare_sqs_messages [] ∅ "f").2 ∧
      result.new_videos_added = (prepare_sqs_messages [] ∅ "f").2.card - (∅ : Finset String).card ∧
      result.new_videos_added + result.duplicates_not_added = ([] : List Rec).length := by
  refine ⟨_, _, rfl, ?_⟩
  exact C1_dedup_gate_monotonic [] ∅ ⟨"f", "b", "t"⟩ (fun b => b) true "" "" _ _ rfl

/-! ## C4 -/

/-- C4: the Batch Builder emits Work Units whose `current_transcript`
values form the contiguous sequence 1..N in output order, where N equals
`total_transcripts` in every Work Unit and equals the number of Work Units
produced. -/
theorem C4_batch_positions_contiguous (df : List Rec) (ids : Finset String) (fid : String) :
    ((prepare_sqs_messages df ids fid).1.map SqsMessage.current_transcript)
        = List.range' 1 (prepare_sqs_messages df ids fid).1.length ∧
    ∀ m ∈ (prepare_sqs_messages df ids fid).1,
      m.total_transcripts = (prepare_sqs_messages df ids fid).1.length := by
  constructor
  · rw [prepare_messages_length, prepare_messages_eq, List.map_map]
    simpa [List.enum_eq_enumFrom, Function.comp] using
      enumFrom_map_fst_succ (df.filter (fun r => decide (r.video_id ∉ ids))) 0
  · intro m hm
    rw [prepare_messages_eq] at hm
    rcases List.mem_map.mp hm with ⟨p, _, hp⟩
    rw [prepare_messages_length, ← hp]

theorem C4_batch_positions_contiguous_witness :
    ((prepare_sqs_messages
        [{ video_id := "aaaaaaaaaaa", title := "t", channel_name := "c",
           type := none, watched_at := TSVal.raw "x", status := some "CREATED" }]
        ∅ "f").1.map SqsMessage.current_transcript)
        = List.range' 1 (prepare_sqs_messages
            [{ video_id := "aaaaaaaaaaa", title := "t", channel_name := "c",
               type := none, watched_at := TSVal.raw "x", status := some "CREATED" }]
            ∅ "f").1.length ∧
    ∀ m ∈ (prepare_sqs_messages
        [{ video_id := "aaaaaaaaaaa", title := "t", channel_name := "c",
           type := none, watched_at := TSVal.raw "x", status := some "CREATED" }]
        ∅ "f").1,
      m.total_transcripts = (prepare_sqs_messages
        [{ video_id := "aaaaaaaaaaa", title := "t", channel_name := "c",
           type := none, watched_at := TSVal.raw "x", status := some "CREATED" }]
        ∅ "f").1.length :=
  C4_batch_positions_contiguous _ ∅ "f"

/-! ## C5 -/

/-- C5: for every list of M Work Units and every queue collaborator, the
chunks sent are exactly `ceil(M/10)` many — computed from the messages
alone, so a rejected item in one chunk does not change which chunks are
sent — every message lies in exactly one chunk (the chunks concatenate
back to the input), each chunk is nonempty with at most 10 items, and the
returned `messages_sent` is the sum of the accepted item counts across the
chunks. -/
theorem C5_chunked_sending (sendBatch : List SqsMessage → List SqsMessage)
    (messages : List SqsMessage) :
    (chunksOf10 messages).length = (messages.length + 9) / 10 ∧
    (chunksOf10 messages).flatten = messages ∧
    (∀ c ∈ chunksOf10 messages, c.length ≤ 10 ∧ c ≠ []) ∧
    send_messages_to_sqs sendBatch messages
      = ((chunksOf10 messages).map (fun b => (sendBatch b).length)).sum := by
  refine ⟨?_, ?_, ?_, rfl⟩
  · induction messages using chunksOf10.induct with
    | case1 => simp [chunksOf10]
    | case2 a rest ih =>
      rw [chunksOf10]
      simp only [List.length_cons]
      rw [ih]
      simp only [List.length_drop, List.length_cons]
      omega
  · induction messages using chunksOf10.induct with
    | case1 => simp [chunksOf10]
    | case2 a rest ih =>
      rw [chunksOf10]
      simp only [List.flatten_cons, ih, List.take_append_drop]
  · induction messages using chunksOf10.induct with
    | case1 => simp [chunksOf10]
    | case2 a rest ih =>
      rw [chunksOf10]
      intro c hc
      rcases List.mem_cons.mp hc with rfl | hc'
      · constructor
        · simp
        · simp
      · exact ih c hc'

/-! ## C6 -/

/-- C6: every Fatal-Input / Fatal-Storage error — a failed trigger-field
extraction, a failed raw-blob fetch, a malformed raw blob, an unrecognized
origin tag, or a failed global-id snapshot read — propagates to the
invocation boundary, and the aborted invocation performs no persisted
write (no status record, no global-id snapshot write: its effect list is
empty). -/
theorem C6_fatal_errors_propagate (parse : String → Option Nat)
    (trigger : Except PyErr (String × String))
    (fetch : String → String → Except PyErr RawData) (uploadTimestamp : String)
    (dap : Except PyErr (List Rec × RunMetadata)) (dei : Except PyErr (Finset String))
    (sendBatch : List SqsMessage → List SqsMessage) (notifyOk : Bool)
    (eventBody nowStr : String) :
    (∀ e, trigger = .error e →
      download_and_preprocess_data parse trigger fetch uploadTimestamp = .error e) ∧
    (∀ bucket key e, trigger = .ok (bucket, key) → fetch bucket key = .error e →
      download_and_preprocess_data parse trigger fetch uploadTimestamp = .error e) ∧
    (∀ bucket key, trigger = .ok (bucket, key) → fetch bucket key = .ok .malformed →
      (bucket = CLAI_EXPORTS_BUCKET_NAME ∨ bucket = CLAI_LIGHT_EXPORTS_BUCKET_NAME) →
      download_and_preprocess_data parse trigger fetch uploadTimestamp = .error .valueError) ∧
    (∀ bucket key raw, trigger = .ok (bucket, key) → fetch bucket key = .ok raw →
      bucket ≠ CLAI_EXPORTS_BUCKET_NAME → bucket ≠ CLAI_LIGHT_EXPORTS_BUCKET_NAME →
      download_and_preprocess_data parse trigger fetch uploadTimestamp = .error .valueError) ∧
    (∀ e, dap = .error e →
      lambda_handler dap dei sendBatch notifyOk eventBody nowStr = .error e ∧
      effectsOf (lambda_handler dap dei sendBatch notifyOk eventBody nowStr) = []) ∧
    (∀ e x, dap = .ok x → dei = .error e →
      lambda_handler dap dei sendBatch notifyOk eventBody nowStr = .error e ∧
      effectsOf (lambda_handler dap dei sendBatch notifyOk eventBody nowStr) = []) := by
  refine ⟨?_, ?_, ?_, ?_, ?_, ?_⟩
  · intro e he
    simp [download_and_preprocess_data, he, bind, Except.bind]
  · intro bucket key e ht hf
    simp [download_and_preprocess_data, ht, hf, bind, Except.bind]
  · intro bucket key ht hf hb
    rcases hb with hb | hb <;> subst hb <;>
      simp only [CLAI_EXPORTS_BUCKET_NAME, CLAI_LIGHT_EXPORTS_BUCKET_NAME] at hf <;>
      simp [download_and_preprocess_data, ht, hf, bind, Except.bind,
        CLAI_EXPORTS_BUCKET_NAME, CLAI_LIGHT_EXPORTS_BUCKET_NAME]
  · intro bucket key raw ht hf hb1 hb2
    simp [download_and_preprocess_data, ht, hf, hb1, hb2, bind, Except.bind]
  · intro e he
    subst he
    exact ⟨rfl, rfl⟩
  · intro e x hx he
    subst hx
    subst he
    exact ⟨rfl, rfl⟩

theorem C6_fatal_errors_propagate_witness :
    lambda_handler (.error .valueError) (.ok ∅) (fun b => b) true "" "" = .error .valueError ∧
    effectsOf (lambda_handler (.error .valueError) (.ok ∅) (fun b => b) true "" "") = [] ∧
    download_and_preprocess_data (fun _ => none) (.error .keyError)
      (fun _ _ => .ok .malformed) "t" = .error .keyError := by
  refine ⟨?_, ?_, ?_⟩
  · exact ((C6_fatal_errors_propagate (fun _ => none) (.error .keyError)
      (fun _ _ => .ok .malformed) "t" (.error .valueError) (.ok ∅) (fun b => b) true
      "" "").2.2.2.2.1 .valueError rfl).1
  · exact ((C6_fatal_errors_propagate (fun _ => none) (.error .keyError)
      (fun _ _ => .ok .malformed) "t" (.error .valueError) (.ok ∅) (fun b => b) true
      "" "").2.2.2.2.1 .valueError rfl).2
  · exact (C6_fatal_errors_propagate (fun _ => none) (.error .keyError)
      (fun _ _ => .ok .malformed) "t" (.error .valueError) (.ok ∅) (fun b => b) true
      "" "").1 .keyError rfl

/-! ## C10 -/

/-- The Dedup Gate as the claim words it (a reference model for
comparison, following the spec's words, not the source): examine the
records in order, emit a record exactly when its `video_id` is not in the
set at the moment it is considered, adding each accepted id to the set as
it is accepted. -/
def onlineDedupGate : List Rec → Finset String → List Rec × Finset String
  | [], ids => ([], ids)
  | r :: rs, ids =>
    if r.video_id ∈ ids then onlineDedupGate rs ids
    else
      (r :: (onlineDedupGate rs (insert r.video_id ids)).1,
       (onlineDedupGate rs (insert r.video_id ids)).2)

/-- A record used in concrete instantiations. -/
def recV : Rec :=
  { video_id := "v", title := "t", channel_name := "c",
    type := none, watched_at := TSVal.raw "x", status := some "CREATED" }

theorem online_eq_filter (df : List Rec) :
    ∀ ids : Finset String, (df.map Rec.video_id).Nodup →
      (onlineDedupGate df ids).1 = df.filter (fun r => decide (r.video_id ∉ ids)) ∧
      (onlineDedupGate df ids).2 =
        ids ∪ ((df.filter (fun r => decide (r.video_id ∉ ids))).map Rec.video_id).toFinset := by
  induction df with
  | nil =>
    intro ids _
    constructor <;> simp [onlineDedupGate]
  | cons r rs ih =>
    intro ids hnd
    rw [List.map_cons, List.nodup_cons] at hnd
    rcases hnd with ⟨hr, hnd'⟩
    by_cases h : r.video_id ∈ ids
    · have hdec : (decide (r.video_id ∉ ids)) = false := by simp [h]
      simp only [onlineDedupGate, if_pos h, List.filter_cons, hdec, Bool.false_eq_true,
        if_false]
      exact ih ids hnd'
    · have hdec : (decide (r.video_id ∉ ids)) = true := by simp [h]
      simp only [onlineDedupGate, if_neg h, List.filter_cons, hdec, if_true]
      have hih := ih (insert r.video_id ids) hnd'
      have hfilters : rs.filter (fun x => decide (x.video_id ∉ insert r.video_id ids))
          = rs.filter (fun x => decide (x.video_id ∉ ids)) := by
        apply List.filter_congr
        intro x hx
        have hne : x.video_id ≠ r.video_id := by
          intro hh
          exact hr (hh ▸ List.mem_map_of_mem Rec.video_id hx)
        by_cases hxi : x.video_id ∈ ids
        · simp [hxi]
        · simp [hxi, Finset.mem_insert, hne]
      rw [hfilters] at hih
      constructor
      · rw [hih.1]
      · rw [hih.2, List.map_cons, List.toFinset_cons, Finset.insert_union,
          Finset.union_insert]

/-- C10 counterexample: with an empty prior set and an input containing
the same `video_id` twice, `prepare_sqs_messages` emits both copies (its
membership mask is computed up front against the prior set only), while
the mechanism the claim describes — exclusion against the set at the
moment each record is considered, ids added as accepted — emits one. -/
theorem C10_counterexample_upfront_filter :
    ((prepare_sqs_messages [recV, recV] ∅ "f").1.map SqsMessage.Id = ["v", "v"]) ∧
    ((onlineDedupGate [recV, recV] ∅).1.map Rec.video_id = ["v"]) := by decide

/-- C10 (amended): the Dedup Gate excludes a record exactly when its
`video_id` is in the Global-Id Set as it stood at the start of the call
(the membership mask is evaluated before the loop); accepted ids are
added to the set as the loop runs but do not exclude later records of the
same run.  A record duplicating a prior run's id is thereby excluded,
while a within-run duplicate is excluded only by the parsers' upstream
per-run uniqueness — and on per-run-unique input the up-front filter
coincides with the record-by-record mechanism the claim describes. -/
theorem C10_dedup_gate_mechanism (df : List Rec) (ids : Finset String) (fid : String) :
    ((prepare_sqs_messages df ids fid).1.map SqsMessage.video_id
        = (df.filter (fun r => decide (r.video_id ∉ ids))).map Rec.video_id) ∧
    ((df.map Rec.video_id).Nodup →
      (prepare_sqs_messages df ids fid).1.map SqsMessage.video_id
          = (onlineDedupGate df ids).1.map Rec.video_id ∧
      (prepare_sqs_messages df ids fid).2 = (onlineDedupGate df ids).2) := by
  have hmap : (prepare_sqs_messages df ids fid).1.map SqsMessage.video_id
      = (df.filter (fun r => decide (r.video_id ∉ ids))).map Rec.video_id := by
    rw [prepare_messages_eq, List.map_map]
    have h2 : ((df.filter (fun r => decide (r.video_id ∉ ids))).enum.map Prod.snd).map
        Rec.video_id = (df.filter (fun r => decide (r.video_id ∉ ids))).map Rec.video_id := by
      rw [List.enum_eq_enumFrom, List.enumFrom_map_snd]
    rw [← h2, List.map_map]
    rfl
  refine ⟨hmap, fun hnd => ?_⟩
  rcases online_eq_filter df ids hnd with ⟨h1, h2⟩
  constructor
  · rw [hmap, h1]
  · rw [prepare_ids_eq, h2]

theorem C10_dedup_gate_mechanism_witness :
    ([recV].map Rec.video_id).Nodup ∧
    ((prepare_sqs_messages [recV] ∅ "f").1.map SqsMessage.video_id
        = (onlineDedupGate [recV] ∅).1.map Rec.video_id ∧
     (prepare_sqs_messages [recV] ∅ "f").2 = (onlineDedupGate [recV] ∅).2) :=
  ⟨by decide, (C10_dedup_gate_mechanism [recV] ∅ "f").2 (by decide)⟩

/-! ## Membership / provenance lemmas for the parsers and the ranking -/

theorem rankSort_perm (l : List Rec) : (rankSort l).Perm l := by
  unfold rankSort
  have h := (csortBy_perm skLe (fun p : Nat × Rec => sortKey l p.1 p.2) l.enum).map Prod.snd
  rwa [List.enum_eq_enumFrom, List.enumFrom_map_snd] at h

theorem move_type_to_top_perm (l : List Rec) : (move_type_to_top l).Perm l :=
  List.filter_append_perm _ l

theorem mem_rank_core {l : List Rec} {r : Rec} (h : r ∈ rank_core l) : r ∈ l := by
  unfold rank_core at h
  have h1 := (dedupBy_sublist Rec.video_id _).mem h
  have h2 := (move_type_to_top_perm (rankSort l)).mem_iff.mp h1
  exact (rankSort_perm l).mem_iff.mp h2

theorem rank_core_ids_nodup (l : List Rec) : ((rank_core l).map Rec.video_id).Nodup :=
  dedupBy_keys_nodup Rec.video_id _

theorem reorder_frame_ok {parse : String → Option Nat} {l out : List Rec}
    (h : reorder_frame parse l = .ok out) :
    ∃ conv, convert_to_datetime parse l = .ok conv ∧ out = rank_core conv := by
  unfold reorder_frame at h
  cases hc : convert_to_datetime parse l with
  | error e =>
    rw [hc] at h
    cases h
  | ok conv =>
    rw [hc] at h
    simp only [bind, Except.bind, Except.ok.injEq] at h
    exact ⟨conv, rfl, h.symm⟩

theorem mem_convert {parse : String → Option Nat} {l out : List Rec}
    (h : convert_to_datetime parse l = .ok out) :
    ∀ r ∈ out, ∃ a ∈ l, ∃ w, to_datetime parse a.watched_at = .ok w ∧
      r = { a with watched_at := w } := by
  intro r hr
  rcases mapME_mem _ l out h r hr with ⟨a, ha, hfa⟩
  cases htd : to_datetime parse a.watched_at with
  | error e =>
    rw [htd] at hfa
    cases hfa
  | ok w =>
    rw [htd] at hfa
    simp only [Except.map, Except.ok.injEq] at hfa
    exact ⟨a, ha, w, htd, hfa.symm⟩

/-- The canonical record built from a Parser-B entry with category `ty`
and (possibly converted) timestamp cell `w`. -/
def recFromB (e : RawEntryB) (ty : String) (w : TSVal) : Rec :=
  { video_id := get_video_id (e.url.getD ""),
    title := e.title.getD "",
    channel_name := e.channelName.getD "",
    type := some ty,
    watched_at := w,
    status := none }

theorem mkRecB_eq_recFromB (t : TaggedB) :
    mkRecB t = recFromB t.entry t.type t.entry.timestamp := rfl

theorem mem_tagEntries {es : List RawEntryB} {ty : String} {t : TaggedB}
    (h : t ∈ tagEntries es ty) : t.entry ∈ es ∧ t.type = ty := by
  unfold tagEntries at h
  rcases List.mem_map.mp h with ⟨p, hp, ht⟩
  subst ht
  constructor
  · have h2 : p.2 ∈ es.enum.map Prod.snd := List.mem_map_of_mem Prod.snd hp
    rwa [List.enum_eq_enumFrom, List.enumFrom_map_snd] at h2
  · rfl

theorem mem_canonicalB {likes subs : List RawEntryB} {r : Rec}
    (h : r ∈ canonicalB likes subs) :
    (∃ e ∈ likes, r = recFromB e "like" e.timestamp) ∨
    (∃ e ∈ subs, r = recFromB e "sub" e.timestamp) := by
  unfold canonicalB at h
  rcases List.mem_map.mp h with ⟨t, ht, hr⟩
  have ht2 : t ∈ sortByTypeOrder (tagEntries likes "like" ++ tagEntries subs "sub") :=
    (List.mem_filter.mp ht).1
  have ht3 : t ∈ tagEntries likes "like" ++ tagEntries subs "sub" :=
    (csortBy_perm kle2 bKey _).mem_iff.mp ht2
  rcases List.mem_append.mp ht3 with h4 | h4
  · rcases mem_tagEntries h4 with ⟨he, hty⟩
    exact Or.inl ⟨t.entry, he, by rw [← hr, mkRecB_eq_recFromB, hty]⟩
  · rcases mem_tagEntries h4 with ⟨he, hty⟩
    exact Or.inr ⟨t.entry, he, by rw [← hr, mkRecB_eq_recFromB, hty]⟩

theorem preprocess_A_ok {es : List RawEntryA} {out : List Rec}
    (h : preprocess_data_clai es = .ok out) :
    ∃ recs, mapME rowToRecA (es.filter rowOkA) = .ok recs ∧
      out = dedupBy Rec.video_id (recs.filter (fun r => r.video_id.length == 11)) := by
  unfold preprocess_data_clai at h
  cases hm : mapME rowToRecA (es.filter rowOkA) with
  | error e =>
    rw [hm] at h
    cases h
  | ok recs =>
    rw [hm] at h
    simp only [bind, Except.bind, Except.ok.injEq] at h
    exact ⟨recs, rfl, h.symm⟩

/-- Everything Parser A guarantees about each surviving record. -/
theorem preprocess_A_members {es : List RawEntryA} {out : List Rec}
    (h : preprocess_data_clai es = .ok out) :
    (out.map Rec.video_id).Nodup ∧
    ∀ r ∈ out, r.video_id.length = 11 ∧ r.type = none ∧ r.status = some "CREATED" := by
  rcases preprocess_A_ok h with ⟨recs, hm, hout⟩
  subst hout
  refine ⟨dedupBy_keys_nodup Rec.video_id _, ?_⟩
  intro r hr
  have h1 := (dedupBy_sublist Rec.video_id _).mem hr
  rcases List.mem_filter.mp h1 with ⟨h2, hlen⟩
  rcases mapME_mem rowToRecA _ recs hm r h2 with ⟨e, _, hrow⟩
  unfold rowToRecA at hrow
  cases hch : extract_channel_name (e.subtitles.getD []) with
  | error err =>
    rw [hch] at hrow
    cases hrow
  | ok ch =>
    rw [hch] at hrow
    simp only [bind, Except.bind, Except.ok.injEq] at hrow
    refine ⟨by simpa using hlen, ?_, ?_⟩ <;> rw [← hrow]

/-! ## C2 -/

/-- Concrete timestamp parser used in closed instantiations: `"x"` parses,
everything else raises `ValueError`. -/
def parse0 : String → Option Nat := fun s => if s = "x" then some 5 else none

/-- A complete Parser-B entry whose URL yields the 3-character id `abc`. -/
def likeE : RawEntryB :=
  { url := some "https://y.com/watch?v=abc", timestamp := TSVal.raw "x",
    title := some "T", channelName := some "C" }

/-- The record Parser B produces from `likeE` in the likes list. -/
def recB0 : Rec :=
  { video_id := "abc", title := "T", channel_name := "C",
    type := some "like", watched_at := TSVal.dt 5, status := none }

/-- C2 counterexample: Parser B applies no length filter, so a valid
Parser-B input whose URL encodes a 3-character id produces a canonical
record with `video_id` length 3, not 11. -/
theorem C2_counterexample_parserB_length :
    preprocess_data_clai_light parse0 [likeE] [] = .ok [recB0] ∧
    recB0.video_id.length = 3 ∧ (3 : Nat) ≠ 11 := by
  refine ⟨by decide, by decide, by decide⟩

/-- C2 (amended): every record surviving Parser A has a `video_id` of
length exactly 11 and Parser A's output ids are pairwise distinct (first
occurrence wins); Parser B's output ids are pairwise distinct as well,
but Parser B applies no length filter, so its ids can have any length. -/
theorem C2_video_id_invariants :
    (∀ (es : List RawEntryA) (out : List Rec), preprocess_data_clai es = .ok out →
      (∀ r ∈ out, r.video_id.length = 11) ∧ (out.map Rec.video_id).Nodup) ∧
    (∀ (parse : String → Option Nat) (likes subs : List RawEntryB) (out : List Rec),
      preprocess_data_clai_light parse likes subs = .ok out →
      (out.map Rec.video_id).Nodup) := by
  constructor
  · intro es out h
    rcases preprocess_A_members h with ⟨hnd, hall⟩
    exact ⟨fun r hr => (hall r hr).1, hnd⟩
  · intro parse likes subs out h
    rcases reorder_frame_ok h with ⟨conv, _, hout⟩
    subst hout
    exact rank_core_ids_nodup conv

/-- A complete Parser-A entry with an 11-character id. -/
def entryA : RawEntryA :=
  { titleUrl := some "https://www.youtube.com/watch?v=dQw4w9WgXcQ",
    title := some "T", subtitles := some [[("name", "C")]], time := some "x" }

/-- The record Parser A produces from `entryA`. -/
def recA0 : Rec :=
  { video_id := "dQw4w9WgXcQ", title := "T", channel_name := "C",
    type := none, watched_at := TSVal.raw "x", status := some "CREATED" }

theorem C2_video_id_invariants_witness :
    preprocess_data_clai [entryA] = .ok [recA0] ∧
    ((∀ r ∈ [recA0], r.video_id.length = 11) ∧ ([recA0].map Rec.video_id).Nodup) ∧
    preprocess_data_clai_light parse0 [likeE] [] = .ok [recB0] ∧
    ([recB0].map Rec.video_id).Nodup := by
  refine ⟨by decide, C2_video_id_invariants.1 [entryA] [recA0] (by decide), by decide,
    C2_video_id_invariants.2 parse0 [likeE] [] [recB0] (by decide)⟩

/-! ## C7 -/

/-- The record Parser B produces from `likeE` in the subs list. -/
def recB0sub : Rec :=
  { video_id := "abc", title := "T", channel_name := "C",
    type := some "sub", watched_at := TSVal.dt 5, status := none }

/-- C7 counterexample: Parser A attaches no category at all to surviving
records (no `type` column; it sets `status='CREATED'`, not a category
`"watch"`), and Parser B labels a subscriptions-list record `"sub"`, not
`"subscribe"`. -/
theorem C7_counterexample_labels :
    preprocess_data_clai [entryA] = .ok [recA0] ∧
    recA0.type = none ∧ recA0.status = some "CREATED" ∧
    preprocess_data_clai_light parse0 [] [likeE] = .ok [recB0sub] ∧
    recB0sub.type = some "sub" ∧ ("sub" : String) ≠ "subscribe" := by
  refine ⟨by decide, by decide, by decide, by decide, by decide, by decide⟩

/-- C7 (amended): every record surviving Parser A carries
`status = 'CREATED'` and no category label (no `type` column); Parser B
labels records originating from the likes list with category `"like"` and
records originating from the subs list with category `"sub"`. -/
theorem C7_category_labels :
    (∀ (es : List RawEntryA) (out : List Rec), preprocess_data_clai es = .ok out →
      ∀ r ∈ out, r.type = none ∧ r.status = some "CREATED") ∧
    (∀ (parse : String → Option Nat) (likes subs : List RawEntryB) (out : List Rec),
      preprocess_data_clai_light parse likes subs = .ok out →
      ∀ r ∈ out, (∃ e ∈ likes, ∃ w, r = recFromB e "like" w) ∨
                 (∃ e ∈ subs, ∃ w, r = recFromB e "sub" w)) := by
  constructor
  · intro es out h r hr
    exact ((preprocess_A_members h).2 r hr).2
  · intro parse likes subs out h r hr
    rcases reorder_frame_ok h with ⟨conv, hconv, hout⟩
    subst hout
    have h1 : r ∈ conv := mem_rank_core hr
    rcases mem_convert hconv r h1 with ⟨a, ha, w, _, hrw⟩
    rcases mem_canonicalB ha with ⟨e, he, hae⟩ | ⟨e, he, hae⟩
    · exact Or.inl ⟨e, he, w, by rw [hrw, hae]; rfl⟩
    · exact Or.inr ⟨e, he, w, by rw [hrw, hae]; rfl⟩

theorem C7_category_labels_witness :
    (∀ r ∈ [recA0], r.type = none ∧ r.status = some "CREATED") ∧
    (∀ r ∈ [recB0sub],
      (∃ e ∈ ([] : List RawEntryB), ∃ w, r = recFromB e "like" w) ∨
      (∃ e ∈ [likeE], ∃ w, r = recFromB e "sub" w)) := by
  constructor
  · exact C7_category_labels.1 [entryA] [recA0] (by decide)
  · exact C7_category_labels.2 parse0 [] [likeE] [recB0sub] (by decide)

/-! ## C9 -/

theorem lawful_natPairLe : LawfulBLE (lexLe natLe natLe) :=
  lawful_lexLe lawful_natLe lawful_natLe

theorem lawful_skLe : LawfulBLE skLe :=
  lawful_lexLe lawful_natPairLe (lawful_lexLe lawful_natPairLe lawful_strLe)

theorem lawful_kle2 : LawfulBLE kle2 :=
  lawful_lexLe lawful_strLe lawful_natLe

/-- A NaN-ranked key never sorts at-or-before a numerically ranked key. -/
theorem skLe_none_some (v : Nat × Nat) (x y : (Nat × Nat) × String) :
    skLe (optKey none, x) (optKey (some v.2), y) = false := by
  simp [skLe, lexLe, optKey, natLe]

/-- In the sorted frame, a record with a NaT `watched_at` never precedes a
record with a parsed datetime: `NaT` records sort last (in particular last
within their channel group). -/
theorem rankSort_nat_last (l : List Rec) :
    (rankSort l).Pairwise (fun a b => tval a = none → tval b = none) := by
  unfold rankSort
  rw [List.pairwise_map]
  apply List.Pairwise.imp ?_
    (csortBy_pairwise skLe lawful_skLe (fun p : Nat × Rec => sortKey l p.1 p.2) l.enum)
  intro p q hle hpnone
  cases hq : tval q.2 with
  | none => rfl
  | some t =>
    exfalso
    have hpk : vrank l p.1 p.2 = none := by
      unfold vrank
      rw [hpnone]
    have hqk : ∃ v, vrank l q.1 q.2 = some v := by
      unfold vrank
      rw [hq]
      exact ⟨_, rfl⟩
    rcases hqk with ⟨v, hqk⟩
    unfold sortKey at hle
    rw [hpk, hqk] at hle
    rw [skLe_none_some (0, v)] at hle
    cases hle

/-- A Parser-B entry whose timestamp field is missing in the source JSON
(`NaN` after normalization, modelled by `nonstr`); `dropna` does not check
the timestamp column, so the row survives to the conversion step. -/
def entryNoTs : RawEntryB :=
  { url := some "u=abcdefghijk", timestamp := TSVal.nonstr,
    title := some "T", channelName := some "C" }

/-- C9 counterexample: timestamp conversion does raise for non-string
values.  `convert_to_datetime` catches only `ValueError`; a non-string
`occurred_at` cell (here the NaN of a missing timestamp field) makes
`isoparse` raise `TypeError`, which propagates — the whole Parser-B run
aborts instead of retaining the record with a sentinel. -/
theorem C9_counterexample_nonstring_raises :
    to_datetime parse0 TSVal.nonstr = .error .typeError ∧
    preprocess_data_clai_light parse0 [entryNoTs] [] = .error .typeError := by
  exact ⟨rfl, by decide⟩

/-- C9 (amended): for every *string* `occurred_at` value the conversion
never raises — an unparseable string becomes the `NaT` sentinel — and a
frame whose `watched_at` cells are all strings converts without error,
retaining every record; in the sorted frame NaT records sort after all
datetime-ranked records (in particular last within their channel group).
For non-string values (e.g. NaN from a missing field) the conversion
raises an uncaught `TypeError`. -/
theorem C9_sentinel_for_strings (parse : String → Option Nat) :
    (∀ s : String, to_datetime parse (TSVal.raw s) =
      .ok (match parse s with | some t => TSVal.dt t | none => TSVal.nat)) ∧
    (∀ l : List Rec, (∀ r ∈ l, ∃ s, r.watched_at = TSVal.raw s) →
      ∃ out, convert_to_datetime parse l = .ok out ∧ out.length = l.length) ∧
    (∀ l : List Rec,
      (rankSort l).Pairwise (fun a b => tval a = none → tval b = none)) := by
  refine ⟨?_, ?_, fun l => rankSort_nat_last l⟩
  · intro s
    cases h : parse s <;> simp [to_datetime, h]
  · intro l hall
    have h1 : ∀ r ∈ l, ∃ b, (to_datetime parse r.watched_at).map
        (fun w => { r with watched_at := w }) = .ok b := by
      intro r hr
      rcases hall r hr with ⟨s, hs⟩
      rw [hs]
      cases h : parse s with
      | none => exact ⟨{ r with watched_at := TSVal.nat }, by simp [to_datetime, h, Except.map]⟩
      | some t => exact ⟨{ r with watched_at := TSVal.dt t }, by simp [to_datetime, h, Except.map]⟩
    rcases mapME_total _ l h1 with ⟨out, hout⟩
    exact ⟨out, hout, mapME_length _ l out hout⟩

theorem C9_sentinel_for_strings_witness :
    (to_datetime parse0 (TSVal.raw "zzz") = .ok TSVal.nat) ∧
    (∃ out, convert_to_datetime parse0 [recV] = .ok out ∧ out.length = [recV].length) := by
  constructor
  · exact (C9_sentinel_for_strings parse0).1 "zzz"
  · exact (C9_sentinel_for_strings parse0).2.1 [recV]
      (fun r hr => by
        rcases List.mem_singleton.mp hr with rfl
        exact ⟨"x", rfl⟩)

/-! ## C3 -/

/-- C3: for every valid Parser-B input, the output consists only of
records from the "like" and "subscribe" source lists, splits as a block of
`'like'`-category records followed by a block of records of other
categories (the stable partition of `move_type_to_top`: within each block
the relative order of the ranked frame is preserved, stated as the blocks
being sublists of the corresponding filters of the ranked frame), and no
two output records share a `video_id`. -/
theorem C3_like_partition (parse : String → Option Nat)
    (likes subs : List RawEntryB) (out : List Rec)
    (h : preprocess_data_clai_light parse likes subs = .ok out) :
    (∃ L R, out = L ++ R ∧ (∀ r ∈ L, isLike r = true) ∧ (∀ r ∈ R, isLike r = false)) ∧
    (out.map Rec.video_id).Nodup ∧
    (∀ r ∈ out, r.type = some "like" ∨ r.type = some "sub") ∧
    (∃ conv, convert_to_datetime parse (canonicalB likes subs) = .ok conv ∧
      (out.filter isLike).Sublist ((rankSort conv).filter isLike) ∧
      (out.filter (fun r => !(isLike r))).Sublist
        ((rankSort conv).filter (fun r => !(isLike r)))) := by
  rcases reorder_frame_ok h with ⟨conv, hconv, hout⟩
  subst hout
  have hsubl : (rank_core conv).Sublist
      ((rankSort conv).filter isLike ++ (rankSort conv).filter (fun r => !(isLike r))) :=
    dedupBy_sublist _ _
  rcases List.sublist_append_iff.mp hsubl with ⟨u1, u2, hu, h1, h2⟩
  have hu1 : ∀ r ∈ u1, isLike r = true := by
    intro r hr
    exact (List.mem_filter.mp (h1.mem hr)).2
  have hu2 : ∀ r ∈ u2, isLike r = false := by
    intro r hr
    have := (List.mem_filter.mp (h2.mem hr)).2
    simpa using this
  refine ⟨⟨u1, u2, hu, hu1, hu2⟩, rank_core_ids_nodup conv, ?_, ?_⟩
  · intro r hr
    have h3 : r ∈ conv := mem_rank_core hr
    rcases mem_convert hconv r h3 with ⟨a, ha, w, _, hrw⟩
    rcases mem_canonicalB ha with ⟨e, _, hae⟩ | ⟨e, _, hae⟩
    · exact Or.inl (by rw [hrw, hae]; rfl)
    · exact Or.inr (by rw [hrw, hae]; rfl)
  · refine ⟨conv, hconv, ?_, ?_⟩
    · have he : (rank_core conv).filter isLike = u1 := by
        rw [hu, List.filter_append, List.filter_eq_self.mpr hu1,
          List.filter_eq_nil_iff.mpr (by intro r hr; simp [hu2 r hr])]
        exact List.append_nil u1
      rw [he]
      exact h1
    · have he : (rank_core conv).filter (fun r => !(isLike r)) = u2 := by
        rw [hu, List.filter_append,
          List.filter_eq_nil_iff.mpr (by intro r hr; simp [hu1 r hr]),
          List.filter_eq_self.mpr (by intro r hr; simp [hu2 r hr])]
        exact List.nil_append u2
      rw [he]
      exact h2

theorem C3_like_partition_witness :
    ∃ out, preprocess_data_clai_light parse0 [likeE] [likeE] = .ok out ∧
      (∃ L R, out = L ++ R ∧ (∀ r ∈ L, isLike r = true) ∧ (∀ r ∈ R, isLike r = false)) ∧
      (out.map Rec.video_id).Nodup := by
  refine ⟨[recB0], by decide, ?_, ?_⟩
  · exact (C3_like_partition parse0 [likeE] [likeE] [recB0] (by decide)).1
  · exact (C3_like_partition parse0 [likeE] [likeE] [recB0] (by decide)).2.1

/-! ## C8: machinery -/

/-- Position-free within-group rank: coincides with `vrank` when no two
records of a channel share a `watched_at` value, so that the positional
tie-break of `rank(method='first')` never fires. -/
def vrankFree (l : List Rec) (r : Rec) : Option Nat :=
  match tval r with
  | none => none
  | some t => some (1 + (l.countP (fun y =>
      y.channel_name == r.channel_name &&
        (match tval y with
         | none => false
         | some t2 => decide (t < t2)))))

/-- Position-free sort key. -/
def freeKey (l : List Rec) (r : Rec) : SortKey :=
  (optKey (vrankFree l r), optKey (grank l r.channel_name), typeStr r)

theorem enum_nodup_index {α β : Type} {f : α → β} {l : List α}
    (h2 : (l.map f).Nodup) {i j : Nat} {r y : α}
    (hi : (i, r) ∈ l.enum) (hj : (j, y) ∈ l.enum) (hpair : f y = f r) : j = i := by
  rw [List.mk_mem_enum_iff_getElem?] at hi hj
  rcases List.getElem?_eq_some.mp hi with ⟨hilen, hir⟩
  rcases List.getElem?_eq_some.mp hj with ⟨hjlen, hjy⟩
  have hinj := List.nodup_iff_injective_get.mp h2
  have h3 : (l.map f).get ⟨i, by rw [List.length_map]; exact hilen⟩ =
      (l.map f).get ⟨j, by rw [List.length_map]; exact hjlen⟩ := by
    rw [List.get_eq_getElem, List.get_eq_getElem, List.getElem_map, List.getElem_map,
      hir, hjy, hpair]
  have h4 := hinj h3
  have h5 : i = j := congrArg Fin.val h4
  omega

theorem countP_enum_snd (q : α → Bool) (l : List α) :
    l.enum.countP (fun p => q p.2) = l.countP q := by
  have h1 : (l.enum.map Prod.snd).countP q = l.enum.countP (fun p => q p.2) := by
    rw [List.countP_map]
    rfl
  rw [← h1, List.enum_eq_enumFrom, List.enumFrom_map_snd]

theorem vrank_eq_free (l : List Rec)
    (h2 : (l.map (fun r => (r.channel_name, tval r))).Nodup) :
    ∀ i r, (i, r) ∈ l.enum → vrank l i r = vrankFree l r := by
  intro i r hmem
  unfold vrank vrankFree
  cases ht : tval r with
  | none => rfl
  | some t =>
    have hcount : l.enum.countP (fun p =>
        p.2.channel_name == r.channel_name &&
          (match tval p.2 with
           | none => false
           | some t2 => decide (t < t2) || (decide (t2 = t) && decide (p.1 < i)))) =
        l.countP (fun y =>
        y.channel_name == r.channel_name &&
          (match tval y with
           | none => false
           | some t2 => decide (t < t2))) := by
      rw [← countP_enum_snd (fun y : Rec =>
        y.channel_name == r.channel_name &&
          (match tval y with
           | none => false
           | some t2 => decide (t < t2))) l]
      apply List.countP_congr
      intro p hp
      cases p with
      | mk j y =>
        simp only [Bool.and_eq_true, beq_iff_eq]
        constructor
        · rintro ⟨hch, hrest⟩
          refine ⟨hch, ?_⟩
          cases hty : tval y with
          | none =>
            rw [hty] at hrest
            exact Bool.noConfusion hrest
          | some t2 =>
            rw [hty] at hrest
            show decide (t < t2) = true
            replace hrest : (decide (t < t2) || (decide (t2 = t) && decide (j < i)))
                = true := hrest
            simp only [Bool.or_eq_true, Bool.and_eq_true, decide_eq_true_eq] at hrest
            rcases hrest with hlt | ⟨he, hj⟩
            · simp [hlt]
            · exfalso
              have hpair : (fun x : Rec => (x.channel_name, tval x)) y
                  = (fun x : Rec => (x.channel_name, tval x)) r := by
                simp only [hch, hty, ht, he]
              have := enum_nodup_index h2 hmem hp hpair
              omega
        · rintro ⟨hch, hrest⟩
          refine ⟨hch, ?_⟩
          cases hty : tval y with
          | none =>
            rw [hty] at hrest
            exact Bool.noConfusion hrest
          | some t2 =>
            rw [hty] at hrest
            show (decide (t < t2) || (decide (t2 = t) && decide (j < i))) = true
            replace hrest : decide (t < t2) = true := hrest
            simp [hrest]
    exact congrArg (fun n => some (1 + n)) hcount

theorem enumFrom_filter_map_snd (p : α → Bool) :
    ∀ (l : List α) (n : Nat),
      ((List.enumFrom n l).filter (fun q => p q.2)).map Prod.snd = l.filter p := by
  intro l
  induction l with
  | nil => intro n; rfl
  | cons a as ih =>
    intro n
    simp only [List.enumFrom_cons, List.filter_cons]
    by_cases h : p a
    · simp only [h, if_true, List.map_cons]
      rw [ih (n + 1)]
    · simp only [h, Bool.false_eq_true, if_false]
      rw [ih (n + 1)]

theorem csortBy_enum_snd [DecidableEq K] (le : K → K → Bool) (f : α → K) (l : List α) :
    (csortBy le (fun p : Nat × α => f p.2) l.enum).map Prod.snd = csortBy le f l := by
  unfold csortBy
  rw [List.map_flatMap]
  have hkeys : (l.enum.map (fun p : Nat × α => f p.2)).dedup = (l.map f).dedup := by
    have h1 : l.enum.map (fun p : Nat × α => f p.2) = (l.enum.map Prod.snd).map f := by
      rw [List.map_map]
      rfl
    rw [h1, List.enum_eq_enumFrom, List.enumFrom_map_snd]
  rw [hkeys]
  apply flatMap_congr
  intro kv _
  rw [List.enum_eq_enumFrom]
  exact enumFrom_filter_map_snd (fun a => decide (f a = kv)) l 0

theorem rankSort_eq_free (l : List Rec)
    (h2 : (l.map (fun r => (r.channel_name, tval r))).Nodup) :
    rankSort l = csortBy skLe (freeKey l) l := by
  unfold rankSort
  have hk : ∀ p ∈ l.enum,
      (fun p : Nat × Rec => sortKey l p.1 p.2) p = (fun p : Nat × Rec => freeKey l p.2) p := by
    intro p hp
    cases p with
    | mk i r =>
      unfold sortKey freeKey
      show (optKey (vrank l i r), optKey (grank l r.channel_name), typeStr r)
          = (optKey (vrankFree l r), optKey (grank l r.channel_name), typeStr r)
      rw [vrank_eq_free l h2 i r hp]
  rw [csortBy_key_congr skLe l.enum hk]
  exact csortBy_enum_snd skLe (freeKey l) l

theorem omax_left_comm (a b c : Option Nat) :
    omax a (omax b c) = omax b (omax a c) := by
  cases a <;> cases b <;> cases c <;> simp only [omax] <;>
    first
      | rfl
      | (congr 1
         first
           | exact max_comm _ _
           | exact max_left_comm _ _ _)

theorem foldr_omax_perm {xs ys : List Rec} (h : xs.Perm ys) :
    xs.foldr (fun r acc => omax (tval r) acc) none
      = ys.foldr (fun r acc => omax (tval r) acc) none := by
  induction h with
  | nil => rfl
  | cons x _ ih => simp only [List.foldr_cons, ih]
  | swap x y l => simp only [List.foldr_cons]; exact omax_left_comm _ _ _
  | trans _ _ ih1 ih2 => rw [ih1, ih2]

theorem gmax_perm {l l' : List Rec} (h : l.Perm l') (c : String) : gmax l c = gmax l' c := by
  unfold gmax
  exact foldr_omax_perm (h.filter (fun r => r.channel_name == c))

theorem channelsSorted_perm {l l' : List Rec} (h : l.Perm l') :
    channelsSorted l = channelsSorted l' := by
  unfold channelsSorted
  apply sorted_perm_eq strLe lawful_strLe
  · exact (insertionSortBy_perm strLe _).trans
      (((h.map Rec.channel_name).dedup).trans (insertionSortBy_perm strLe _).symm)
  · exact insertionSortBy_pairwise strLe lawful_strLe _
  · exact insertionSortBy_pairwise strLe lawful_strLe _

theorem grank_perm {l l' : List Rec} (h : l.Perm l') (c : String) : grank l c = grank l' c := by
  have hg : ∀ c2, gmax l c2 = gmax l' c2 := fun c2 => gmax_perm h c2
  unfold grank
  rw [hg c, channelsSorted_perm h]
  cases gmax l' c with
  | none => rfl
  | some m =>
    exact congrArg (fun n => some (1 + n))
      (List.countP_congr (fun c2 _ => by rw [hg c2]))

theorem vrankFree_perm {l l' : List Rec} (h : l.Perm l') (r : Rec) :
    vrankFree l r = vrankFree l' r := by
  unfold vrankFree
  cases tval r with
  | none => rfl
  | some t => exact congrArg (fun n => some (1 + n)) (h.countP_eq _)

theorem freeKey_perm {l l' : List Rec} (h : l.Perm l') (r : Rec) :
    freeKey l r = freeKey l' r := by
  unfold freeKey
  rw [vrankFree_perm h, grank_perm h]

theorem isLike_eq_typeStr (r : Rec) : isLike r = (typeStr r == "like") := by
  unfold isLike typeStr
  cases r.type with
  | none => simp
  | some x => simp

/-- `move_type_to_top` permutes records only across different `type`
values; as the sort key determines the type, each key class is left
untouched. -/
theorem move_filter_key (l : List Rec) (k : Rec → SortKey)
    (hk : ∀ r, (k r).2.2 = typeStr r) (kv : SortKey) :
    (move_type_to_top l).filter (fun r => decide (k r = kv)) =
      l.filter (fun r => decide (k r = kv)) := by
  unfold move_type_to_top
  rw [List.filter_append, filter_filter_and, filter_filter_and]
  by_cases hkv : kv.2.2 = "like"
  · have h1 : l.filter (fun r => isLike r && decide (k r = kv)) =
        l.filter (fun r => decide (k r = kv)) := by
      apply List.filter_congr
      intro r _
      by_cases h : k r = kv
      · have ht : typeStr r = "like" := by rw [← hk r, h, hkv]
        have hl : isLike r = true := by rw [isLike_eq_typeStr, ht]; rfl
        simp [h, hl]
      · simp [h]
    have h2 : l.filter (fun r => (!(isLike r)) && decide (k r = kv)) = [] := by
      apply List.filter_eq_nil_iff.mpr
      intro r _
      by_cases h : k r = kv
      · have ht : typeStr r = "like" := by rw [← hk r, h, hkv]
        have hl : isLike r = true := by rw [isLike_eq_typeStr, ht]; rfl
        simp [hl]
      · simp [h]
    rw [h1, h2, List.append_nil]
  · have h1 : l.filter (fun r => isLike r && decide (k r = kv)) = [] := by
      apply List.filter_eq_nil_iff.mpr
      intro r _
      by_cases h : k r = kv
      · have ht : typeStr r ≠ "like" := by rw [← hk r, h]; exact hkv
        have hl : isLike r = false := by
          rw [isLike_eq_typeStr]
          simp [ht]
        simp [hl]
      · simp [h]
    have h2 : l.filter (fun r => (!(isLike r)) && decide (k r = kv)) =
        l.filter (fun r => decide (k r = kv)) := by
      apply List.filter_congr
      intro r _
      by_cases h : k r = kv
      · have ht : typeStr r ≠ "like" := by rw [← hk r, h]; exact hkv
        have hl : isLike r = false := by
          rw [isLike_eq_typeStr]
          simp [ht]
        simp [h, hl]
      · simp [h]
    rw [h1, h2, List.nil_append]

theorem csortBy_eq_of_buckets [DecidableEq K] (le : K → K → Bool) (hle : LawfulBLE le)
    (k : α → K) {l l' : List α} (hperm : (l.map k).Perm (l'.map k))
    (hb : ∀ kv, l.filter (fun a => decide (k a = kv)) = l'.filter (fun a => decide (k a = kv))) :
    csortBy le k l = csortBy le k l' := by
  unfold csortBy
  have hkeys : insertionSortBy le (l.map k).dedup = insertionSortBy le (l'.map k).dedup := by
    apply sorted_perm_eq le hle
    · exact (insertionSortBy_perm le _).trans
        (hperm.dedup.trans (insertionSortBy_perm le _).symm)
    · exact insertionSortBy_pairwise le hle _
    · exact insertionSortBy_pairwise le hle _
  rw [hkeys]
  exact flatMap_congr (fun kv _ => hb kv)

/-- Idempotence of the post-conversion ranking on record sets with
pairwise-distinct `video_id` and no repeated `(channel, timestamp)` pair. -/
theorem rank_core_idem (m : List Rec)
    (h1 : (m.map Rec.video_id).Nodup)
    (h2 : (m.map (fun r => (r.channel_name, tval r))).Nodup) :
    rank_core (rank_core m) = rank_core m := by
  have hsort : rankSort m = csortBy skLe (freeKey m) m := rankSort_eq_free m h2
  have hperm_s : (csortBy skLe (freeKey m) m).Perm m := csortBy_perm _ _ _
  have hperm_out : (move_type_to_top (csortBy skLe (freeKey m) m)).Perm m :=
    (move_type_to_top_perm _).trans hperm_s
  have hvout : ((move_type_to_top (csortBy skLe (freeKey m) m)).map Rec.video_id).Nodup :=
    ((hperm_out.map Rec.video_id).nodup_iff).mpr h1
  have hcore : rank_core m = move_type_to_top (csortBy skLe (freeKey m) m) := by
    unfold rank_core
    rw [hsort]
    exact dedupBy_eq_self _ _ hvout
  have h2out : ((move_type_to_top (csortBy skLe (freeKey m) m)).map
      (fun r => (r.channel_name, tval r))).Nodup :=
    ((hperm_out.map _).nodup_iff).mpr h2
  have hsort2 : rankSort (move_type_to_top (csortBy skLe (freeKey m) m))
      = csortBy skLe (freeKey m) (move_type_to_top (csortBy skLe (freeKey m) m)) := by
    rw [rankSort_eq_free _ h2out]
    exact csortBy_key_congr skLe _ (fun a _ => freeKey_perm hperm_out a)
  have hbuckets : ∀ kv, (move_type_to_top (csortBy skLe (freeKey m) m)).filter
      (fun a => decide (freeKey m a = kv)) = m.filter (fun a => decide (freeKey m a = kv)) := by
    intro kv
    rw [move_filter_key _ (freeKey m) (fun r => rfl) kv, csortBy_filter_key]
  have hsame : csortBy skLe (freeKey m) (move_type_to_top (csortBy skLe (freeKey m) m))
      = csortBy skLe (freeKey m) m :=
    csortBy_eq_of_buckets skLe lawful_skLe (freeKey m) (hperm_out.map (freeKey m)) hbuckets
  rw [hcore]
  unfold rank_core
  rw [hsort2, hsame]
  exact dedupBy_eq_self _ _ hvout

/-! ## C8: claim -/

theorem mapME_ok_forall (f : α → Except ε β) :
    ∀ (l : List α) (out : List β), mapME f l = .ok out → ∀ a ∈ l, ∃ b, f a = .ok b := by
  intro l
  induction l with
  | nil => intro out _ a ha; cases ha
  | cons a as ih =>
    intro out h a' ha'
    simp only [mapME, bind, Except.bind] at h
    cases hf : f a with
    | error e => rw [hf] at h; cases h
    | ok b =>
      rw [hf] at h
      cases hm : mapME f as with
      | error e => rw [hm] at h; cases h
      | ok bs =>
        rcases List.mem_cons.mp ha' with rfl | ha2
        · exact ⟨b, hf⟩
        · exact ih bs hm a' ha2

theorem to_datetime_ok_raw {parse : String → Option Nat} {w w' : TSVal}
    (h : to_datetime parse w = .ok w') : ∃ s, w = TSVal.raw s := by
  cases w with
  | raw s => exact ⟨s, rfl⟩
  | nonstr => cases h
  | dt t => cases h
  | nat => cases h

/-- A converted record used in the counterexample (channel `c`, datetime
`t`, id `v`, category `'sub'`). -/
def mkR (c : String) (t : Nat) (v : String) : Rec :=
  { video_id := v, title := "", channel_name := c, type := some "sub",
    watched_at := TSVal.dt t, status := none }

/-- A record set on which the post-conversion ranking fails to be
idempotent: the run's duplicate id `va` is dropped by the final dedup, the
re-ranking then renumbers the within-group ranks of channel `B`, and two
records swap places. -/
def l7 : List Rec :=
  [mkR "A" 100 "va", mkR "B" 90 "vb", mkR "B" 70 "va", mkR "B" 50 "vc",
   mkR "C" 80 "vd", mkR "C" 60 "ve", mkR "C" 40 "vf"]

/-- C8 counterexample: re-applying `reorder_frame` to its own output
raises `TypeError` (the `watched_at` cells are already datetime objects,
which `isoparse` cannot take), so it cannot "yield the same order"; and
even the ranking steps downstream of the conversion are not idempotent:
on `l7` the re-ranked order differs from the first ranking's order. -/
theorem C8_counterexample_not_idempotent :
    (preprocess_data_clai_light parse0 [likeE] [likeE] = .ok [recB0] ∧
     reorder_frame parse0 [recB0] = .error .typeError) ∧
    rank_core (rank_core l7) ≠ rank_core l7 := by
  exact ⟨⟨by decide, by decide⟩, by decide⟩

/-- C8 (amended): `reorder_frame` can only succeed on a frame whose
`watched_at` cells are all raw strings — its own (nonempty) output never
is, re-application raises `TypeError` instead of reproducing the order —
and the ranking steps downstream of the conversion are idempotent exactly
under the provisos that no two records share a `video_id` (otherwise the
final dedup changes the group statistics the second pass recomputes, cf.
`l7`) and no two records of one channel share a timestamp (otherwise the
like-promotion reorders positional ties). -/
theorem C8_ranking_idempotence :
    (∀ (parse : String → Option Nat) (l out : List Rec),
      reorder_frame parse l = .ok out → ∀ r ∈ l, ∃ s, r.watched_at = TSVal.raw s) ∧
    (∀ m : List Rec, (m.map Rec.video_id).Nodup →
      (m.map (fun r => (r.channel_name, tval r))).Nodup →
      rank_core (rank_core m) = rank_core m) := by
  constructor
  · intro parse l out h r hr
    rcases reorder_frame_ok h with ⟨conv, hconv, _⟩
    rcases mapME_ok_forall _ l conv hconv r hr with ⟨b, hb⟩
    cases htd : to_datetime parse r.watched_at with
    | error e => rw [htd] at hb; cases hb
    | ok w => exact to_datetime_ok_raw htd
  · intro m hm1 hm2
    exact rank_core_idem m hm1 hm2

theorem C8_ranking_idempotence_witness :
    (∀ r ∈ [recV], ∃ s, r.watched_at = TSVal.raw s) ∧
    rank_core (rank_core [mkR "A" 100 "va", mkR "B" 90 "vb"])
      = rank_core [mkR "A" 100 "va", mkR "B" 90 "vb"] := by
  constructor
  · exact C8_ranking_idempotence.1 parse0 [recV]
      [{ recV with watched_at := TSVal.dt 5 }] (by decide)
  · exact C8_ranking_idempotence.2 [mkR "A" 100 "va", mkR "B" 90 "vb"]
      (by decide) (by decide)

end ClaiQueue
